import Mathlib

/-!
Verification of the graph-compilation engine of `pipe2py/compile.py`.

The file shallowly embeds `parse_pipe_def`, `build_pipeline` and
`stringify_pipe` from `src/pipe2py/compile.py` (Python 2).  Python dicts
are modelled as association lists whose order is the dict's iteration
order; Python exceptions (`KeyError`, `AssertionError`, `NameError`,
`TypeError`, the cycle failure of the topological sort) are modelled with
`Except`.  Components of the repository that are not under `src/`
(`pipe2py.util.pythonise`, `pipe2py.topsort.topological_sort`,
`pipe2py.pprint2.repr_args`, the operator modules) are modelled from the
spec and marked as such in their doc comments.
-/

/-- A scalar JSON value appearing in a module configuration.  JSON numbers
are modelled as integers (positions and defaults in pipe documents are
integral); this does not affect any claim. -/
inductive JVal where
  | null
  | n (v : Int)
  | s (v : String)
deriving DecidableEq

mutual
/-- A module configuration: `None`/missing (falsy) or a dict of entries,
as read by `compile.py` (`module['conf']`). -/
inductive Conf where
  | null
  | entries (es : List (String × CEntry))

/-- A configuration entry: either a literal `{'type': …, 'value': …}` pair
or, for the loop type, `{'value': <module definition>}` holding an embedded
module (`conf['embed']['value']`). -/
inductive CEntry where
  | lit (ty val : JVal)
  | embedded (id type_ : String) (conf : Conf)
end

/-- Raw module definition from the pipe JSON document: `{'id', 'type', 'conf'}`. -/
structure RawModule where
  id : String
  type_ : String
  conf : Conf

/-- One end of a wire: `{'moduleid': …, 'id': …}`. -/
structure Endpoint where
  moduleid : String
  id : String
deriving DecidableEq

/-- A wire from the pipe JSON document: `{'id', 'src', 'tgt'}`. -/
structure Wire where
  id : String
  src : Endpoint
  tgt : Endpoint
deriving DecidableEq

/-- A raw pipe document: the `modules` and `wires` fields, already
normalised to sequences (the source wraps a single object into a
one-element list, so a single-object document is the one-element case). -/
structure PipeDef where
  modules : List RawModule
  wires : List Wire

/-- The run context (`pipe2py.Context`): only the flags read by
`compile.py` are modelled. -/
structure Context where
  describe_input : Bool := false
  verbose : Bool := false

/-- Modelled from the spec: `pipe2py.util.pythonise` is not under `src/`.
Per §1/§3 it is an out-of-scope pure, deterministic identifier
canonicaliser whose exact character mapping is unspecified; it is modelled
as the identity, i.e. documents are taken to carry already-canonical
identifiers. -/
def pythonise (s : String) : String := s

/-- Python str.startswith.  The library's `String.startsWith` is an
externally compiled byte-level routine that the kernel cannot evaluate, so
the character-list model is used throughout the embedding. -/
def startswith (s p : String) : Bool := p.data.isPrefixOf s.data

/-- Python dict lookup (`d[k]` read side, returning `Option`): the value of
the first entry with the given key.  Dicts built by the embedded code have
unique keys, so this matches Python. -/
def dictGet {α : Type} (d : List (String × α)) (k : String) : Option α :=
  (d.find? (fun kv => kv.1 == k)).map (fun kv => kv.2)

/-- A Python exception as raised by the embedded code. -/
inductive PyErr where
  | keyError (k : String)
  | assertionError
  | nameError (n : String)
  | typeError (msg : String)
  | valueError (msg : String)
deriving DecidableEq

/-- Python dict lookup `d[k]`, raising `KeyError` when the key is absent. -/
def dictGetE {α : Type} (d : List (String × α)) (k : String) : Except PyErr α :=
  match dictGet d k with
  | some v => .ok v
  | none => .error (.keyError k)

/-- Python dict assignment `d[k] = v`: overwrite in place when the key is
present (the dicts built by the embedded code have unique keys, so the
first occurrence is the only one), append otherwise. -/
def dictSet {α : Type} (d : List (String × α)) (k : String) (v : α) :
    List (String × α) :=
  match d with
  | [] => [(k, v)]
  | kv :: rest => if kv.1 == k then (k, v) :: rest else kv :: dictSet rest k v

/-- `pipe['graph'][k].append(v)`: in-place append to the list stored at an
existing key; `KeyError` when the key is absent. -/
def graphAppend (g : List (String × List String)) (k v : String) :
    Except PyErr (List (String × List String)) :=
  match dictGet g k with
  | some l => .ok (dictSet g k (l ++ [v]))
  | none => .error (.keyError k)

/-- Configuration lookup `conf[k]` as an `Option`. -/
def Conf.get (c : Conf) (k : String) : Option CEntry :=
  match c with
  | .null => none
  | .entries es => dictGet es k

/-- Python truthiness of `module['conf']` (`None` and `{}` are falsy). -/
def Conf.truthy : Conf → Bool
  | .null => false
  | .entries es => !es.isEmpty

/-- Membership test `'prompt' in module['conf']` (false on a falsy conf,
mirroring Python only where the source also guards on truthiness). -/
def Conf.hasKey (c : Conf) (k : String) : Bool :=
  (c.get k).isSome

/-- Read `conf[k]['value']` as a scalar, `KeyError` when the entry is
absent.  An embedded-module entry in a scalar position is modelled as a
`TypeError`; such confs lie outside every success hypothesis used below. -/
def Conf.litValue (c : Conf) (k : String) : Except PyErr JVal :=
  match c.get k with
  | some (.lit _ v) => .ok v
  | some (.embedded _ _ _) => .error (.typeError "module value read as scalar")
  | none => .error (.keyError k)

/-- Read `conf[k]['type']` as a scalar (same conventions as `Conf.litValue`). -/
def Conf.litType (c : Conf) (k : String) : Except PyErr JVal :=
  match c.get k with
  | some (.lit t _) => .ok t
  | some (.embedded _ _ _) => .error (.typeError "module value read as scalar")
  | none => .error (.keyError k)

/-- Read `conf['embed']['value']` as an embedded module definition
(`KeyError` when `'embed'` is absent; a literal entry there is a
`TypeError`, standing for Python's failure to subscript a scalar). -/
def Conf.embedValue (c : Conf) : Except PyErr RawModule :=
  match c.get "embed" with
  | some (.embedded i t cf) => .ok ⟨i, t, cf⟩
  | some (.lit _ _) => .error (.typeError "scalar read as module")
  | none => .error (.keyError "embed")

/-- The internal pipe representation returned by `parse_pipe_def`. -/
structure Pipe where
  name : String
  modules : List (String × RawModule)
  embed : List (String × RawModule)
  graph : List (String × List String)
  wires : List (String × Wire)

/-! ## Topological sort (modelled from the spec) -/

/-- Every module id occurring in the graph: the keys together with every
successor. -/
def graphNodes (g : List (String × List String)) : List String :=
  (g.map (fun kv => kv.1) ++ g.flatMap (fun kv => kv.2)).dedup

/-- Successor list of a node (empty when the node is not a key). -/
def succsOf (g : List (String × List String)) (n : String) : List String :=
  (dictGet g n).getD []

/-- Strict lexicographic comparison of character lists by code point
(the order Python's `sorted` applies to module-id strings). -/
def strLtB : List Char → List Char → Bool
  | [], [] => false
  | [], _ :: _ => true
  | _ :: _, [] => false
  | c :: cs, d :: ds =>
      if c.toNat < d.toNat then true
      else if d.toNat < c.toNat then false
      else strLtB cs ds

/-- The smaller of two strings under `strLtB` (the first on ties). -/
def strMin (a b : String) : String := if strLtB b.data a.data then b else a

/-- Smallest string of a list, `none` on the empty list. -/
def pickMin (l : List String) : Option String :=
  match l with
  | [] => none
  | a :: rest => some (rest.foldl strMin a)

/-- Modelled from the spec: one round of Kahn's algorithm — the nodes of
`remaining` that no remaining node points to, i.e. currently eligible. -/
def eligible (g : List (String × List String)) (remaining : List String) :
    List String :=
  remaining.filter (fun n =>
    remaining.all (fun m => !(succsOf g m).contains n))

/-- Modelled from the spec: worker for `topological_sort` (fuel-driven
Kahn's algorithm, smallest-id tie-breaking, failure on a cycle). -/
def topsortAux (g : List (String × List String)) :
    Nat → List String → List String → Except PyErr (List String)
  | 0, remaining, acc =>
      if remaining.isEmpty then .ok acc.reverse
      else .error (.valueError "cycle detected")
  | fuel + 1, remaining, acc =>
      if remaining.isEmpty then .ok acc.reverse
      else
        match pickMin (eligible g remaining) with
        | none => .error (.valueError "cycle detected")
        | some n => topsortAux g fuel (remaining.erase n) (n :: acc)

/-- Modelled from the spec: `pipe2py.topsort.topological_sort` is not under
`src/`.  §4.2: a total order over all module ids occurring in the successor
adjacency such that for every edge u→v, u precedes v; deterministic
tie-breaking in ascending id order; fails fast on a cycle. -/
def topological_sort (g : List (String × List String)) :
    Except PyErr (List String) :=
  topsortAux g (graphNodes g).length (graphNodes g) []

/-! ## parse_pipe_def -/

/-- State threaded through the module-registration loop of
`parse_pipe_def` (lines 75–87). -/
structure ParseSt where
  modules : List (String × RawModule)
  embed : List (String × RawModule)
  graph : List (String × List String)

/-- One iteration of the module loop of `parse_pipe_def` (lines 75–87):
register the module and its graph node; for a loop module additionally
register the embedded module, mark it embedded, and make the loop depend
on it. -/
def parseModule (st : ParseSt) (module : RawModule) : Except PyErr ParseSt := do
  let st1 : ParseSt :=
    { st with
      modules := dictSet st.modules (pythonise module.id) module
      graph := dictSet st.graph (pythonise module.id) [] }
  if module.type_ == "loop" then
    let embed ← module.conf.embedValue
    let st2 : ParseSt :=
      { modules := dictSet st1.modules (pythonise embed.id) embed
        embed := dictSet st1.embed (pythonise embed.id) embed
        graph := dictSet st1.graph (pythonise embed.id) [] }
    -- make the loop dependent on its embedded module
    let g ← graphAppend st2.graph (pythonise embed.id) (pythonise module.id)
    pure { st2 with graph := g }
  else
    pure st1

/-- The module loop of `parse_pipe_def`. -/
def parseModules (mods : List RawModule) (st : ParseSt) : Except PyErr ParseSt :=
  match mods with
  | [] => .ok st
  | m :: rest => do
      let st' ← parseModule st m
      parseModules rest st'

/-- The wire loop of `parse_pipe_def` (lines 94–96): add an edge from the
canonical source module id to the canonical target module id.  The source
id must already be a graph key (`KeyError` otherwise); the target id is
appended unchecked. -/
def parseWires (g : List (String × List String)) (wires : List Wire) :
    Except PyErr (List (String × List String)) :=
  match wires with
  | [] => .ok g
  | w :: rest => do
      let g' ← graphAppend g (pythonise w.src.moduleid) (pythonise w.tgt.moduleid)
      parseWires g' rest

/-- One iteration of the orphan-pruning loop (lines 99–102): delete `node`
when its successor list is empty and no node's successor list contains it.
The loop iterates over a snapshot of the keys; a node is only ever deleted
at its own iteration, so the lookup always succeeds (the `none` branch is
unreachable). -/
def pruneStep (cur : List (String × List String)) (node : String) :
    List (String × List String) :=
  match dictGet cur node with
  | some succs =>
      if succs.isEmpty && !(cur.any (fun kv => kv.2.contains node)) then
        cur.filter (fun kv => kv.1 != node)
      else cur
  | none => cur

/-- The orphan-pruning loop of `parse_pipe_def` (lines 98–102). -/
def pruneOrphans (g : List (String × List String)) :
    List (String × List String) :=
  (g.map (fun kv => kv.1)).foldl pruneStep g

/-- `parse_pipe_def` (lines 52–107): parse pipe JSON into the internal
structures. -/
def parse_pipe_def (pipe_def : PipeDef) (pipe_name : String := "anonymous") :
    Except PyErr Pipe := do
  let st ← parseModules pipe_def.modules ⟨[], [], []⟩
  let g ← parseWires st.graph pipe_def.wires
  let g := pruneOrphans g
  let wires := pipe_def.wires.foldl
    (fun d w => dictSet d (pythonise w.id) w) []
  pure { name := pythonise pipe_name
         modules := st.modules
         embed := st.embed
         graph := g
         wires := wires }

/-! ## build_pipeline -/

/-- A pipeline step object stored in the `steps` dict of `build_pipeline`.
Operator factories are opaque external collaborators (spec §1/§6), so a
step is identified by the module whose construction produced it; the
arguments of each construction are recorded separately in the build trace.
Python `==` on these objects is identity, which coincides with structural
equality here because each module is constructed at most once. -/
inductive StepObj where
  | forever
  | step (module_id : String)
  | submodule (module_id : String)
deriving DecidableEq

/-- A Python value flowing through `build_pipeline`'s plumbing. -/
inductive PyVal where
  | ctx
  | obj (s : StepObj)
  | strv (s : String)
  | pair (a b : PyVal)
  | intv (v : Int)
  | confv (c : Conf)
  | pynone

mutual
/-- Python `==` on configurations (structural dict equality). -/
def Conf.beq : Conf → Conf → Bool
  | .null, .null => true
  | .entries a, .entries b => centryListBeq a b
  | _, _ => false

/-- Pointwise equality of configuration entry lists. -/
def centryListBeq : List (String × CEntry) → List (String × CEntry) → Bool
  | [], [] => true
  | (k1, e1) :: r1, (k2, e2) :: r2 =>
      k1 == k2 && CEntry.beq e1 e2 && centryListBeq r1 r2
  | _, _ => false

/-- Python `==` on configuration entries. -/
def CEntry.beq : CEntry → CEntry → Bool
  | .lit t1 v1, .lit t2 v2 => t1 == t2 && v1 == v2
  | .embedded i1 t1 c1, .embedded i2 t2 c2 =>
      i1 == i2 && t1 == t2 && Conf.beq c1 c2
  | _, _ => false
end

/-- Python `==` on `PyVal`s: structural within a type, `False` across
types (a step object never equals a tuple or a string). -/
def pyEq : PyVal → PyVal → Bool
  | .ctx, .ctx => true
  | .obj a, .obj b => a == b
  | .strv a, .strv b => a == b
  | .pair a b, .pair c d => pyEq a c && pyEq b d
  | .intv a, .intv b => a == b
  | .confv a, .confv b => Conf.beq a b
  | .pynone, .pynone => true
  | _, _ => false

/-- A recorded invocation of an external operator factory:
`module_ref(*pargs, **kargs)` for one module. -/
structure BuildCall where
  module_id : String
  generator : String
  pargs : List PyVal
  kargs : List (String × PyVal)

/-- An exception escaping `build_pipeline`, together with the ids of the
steps already instantiated when it was raised (`"forever"` is the synthetic
root step). -/
structure BuildErr where
  err : PyErr
  instantiated : List String

/-- A declared-input tuple `(position, name, prompt, default type, default
value)` collected from a module's prompt configuration. -/
abbrev InputTuple := JVal × JVal × JVal × JVal × JVal

/-- Python 2 `<` across the scalar values occurring in input tuples:
`None` sorts below numbers, numbers below strings. -/
def jvalLt : JVal → JVal → Bool
  | .null, .null => false
  | .null, _ => true
  | .n _, .null => false
  | .n a, .n b => decide (a < b)
  | .n _, .s _ => true
  | .s _, .null => false
  | .s _, .n _ => false
  | .s a, .s b => decide (a < b)

/-- Non-strict version of `jvalLt`. -/
def jvalLe (a b : JVal) : Bool := jvalLt a b || a == b

/-- Python 2 lexicographic comparison of 5-tuples, as used by
`sorted(pyinput)`. -/
def tupleLe (a b : InputTuple) : Bool :=
  jvalLt a.1 b.1 ||
  (a.1 == b.1 && (jvalLt a.2.1 b.2.1 ||
    (a.2.1 == b.2.1 && (jvalLt a.2.2.1 b.2.2.1 ||
      (a.2.2.1 == b.2.2.1 && (jvalLt a.2.2.2.1 b.2.2.2.1 ||
        (a.2.2.2.1 == b.2.2.2.1 && jvalLe a.2.2.2.2 b.2.2.2.2)))))))

/-- The first pass of `build_pipeline` (lines 124–146): import referenced
sub-pipelines (modelled as a no-op on the environment, spec §6 assumes the
registry available) and, in describe mode, collect the declared-input
tuple of every scheduled module whose configuration declares a prompt. -/
def firstPass (context : Context) (pipe : Pipe) :
    List String → List InputTuple → Except PyErr (List InputTuple)
  | [], pyinput => .ok pyinput
  | module_id :: rest, pyinput => do
      let module ← dictGetE pipe.modules module_id
      if module.conf.truthy && module.conf.hasKey "prompt" &&
          context.describe_input then do
        let position ← module.conf.litValue "position"
        let name ← module.conf.litValue "name"
        let prompt ← module.conf.litValue "prompt"
        let dtype ← module.conf.litType "default"
        let dvalue ← module.conf.litValue "default"
        firstPass context pipe rest (pyinput ++ [(position, name, prompt, dtype, dvalue)])
      else firstPass context pipe rest pyinput

/-- The default-input scan of `build_pipeline` (lines 162–174): walk the
wires dict in iteration order; every wire targeting `(module_id, "_INPUT")`
from a default-output port rebinds `input_module` to the source module's
step (so the last match wins); each rebinding performs a `steps` lookup. -/
def defaultInputScan (steps : List (String × StepObj)) (module_id : String) :
    List (String × Wire) → PyVal → Except PyErr PyVal
  | [], input_module => .ok input_module
  | kv :: rest, input_module =>
      let pipe_wire := kv.2
      if pythonise pipe_wire.tgt.moduleid == module_id &&
          pipe_wire.tgt.id == "_INPUT" &&
          startswith pipe_wire.src.id "_OUTPUT" then
        match dictGetE steps (pythonise pipe_wire.src.moduleid) with
        | .ok v => defaultInputScan steps module_id rest (PyVal.obj v)
        | .error e => .error e
      else defaultInputScan steps module_id rest input_module

/-- Lines 161–174 of `build_pipeline`: `input_module = steps["forever"]`
followed by the default-input scan. -/
def buildDefaultInput (steps : List (String × StepObj))
    (wires : List (String × Wire)) (module_id : String) : Except PyErr PyVal := do
  let init ← dictGetE steps "forever"
  defaultInputScan steps module_id wires (PyVal.obj init)

/-- The auxiliary-input scan of `build_pipeline` (lines 187–199): every
wire targeting a non-default input port of the module from a
default-output port sets `kargs[port] = steps[source]` (dict assignment,
so the last wire for a port wins). -/
def extraKargsScan (steps : List (String × StepObj)) (module_id : String) :
    List (String × Wire) → List (String × PyVal) →
    Except PyErr (List (String × PyVal))
  | [], kargs => .ok kargs
  | kv :: rest, kargs =>
      let pipe_wire := kv.2
      if pythonise pipe_wire.tgt.moduleid == module_id &&
          pipe_wire.tgt.id != "_INPUT" &&
          startswith pipe_wire.src.id "_OUTPUT" then
        match dictGetE steps (pythonise pipe_wire.src.moduleid) with
        | .ok v =>
            extraKargsScan steps module_id rest
              (dictSet kargs (pythonise pipe_wire.tgt.id) (PyVal.obj v))
        | .error e => .error e
      else extraKargsScan steps module_id rest kargs

/-- Processing of one module in the main loop of `build_pipeline`
(lines 154–242): resolve the default input, apply the embedded branch,
collect kargs (conf, auxiliary inputs, embed, splits), and invoke the
factory.  The split branch mirrors the source faithfully: `filter` there
iterates the *keys* of the wires dict, and subscripting a key string with
`'src'` raises `TypeError`, so any non-empty wires dict raises; an empty
dict yields a count of 0.  The embedded branch mirrors the source's
`assert input_module == (steps["forever"], "…")` — a comparison of a step
object against a 2-tuple — and, were the assertion to pass, the
`partial(module_ref, context, _INPUT, conf=…, **kwargs)` call whose
`_INPUT` and `kwargs` names are unbound. -/
def processModule (pipe : Pipe) (steps : List (String × StepObj))
    (module_id : String) : Except PyErr (List (String × StepObj) × BuildCall) := do
  let module ← dictGetE pipe.modules module_id
  let module_type := module.type_
  let input_module ← buildDefaultInput steps pipe.wires module_id
  let input_module ←
    if pipe.embed.any (fun kv => kv.1 == module_id) then do
      let f ← dictGetE steps "forever"
      if pyEq input_module
          (.pair (.obj f) (.strv "input_module of an embedded module was already set")) then
        pure (PyVal.strv "_INPUT")
      else
        Except.error PyErr.assertionError
    else pure input_module
  let pargs := [PyVal.ctx, input_module]
  let kargs := [("conf", PyVal.confv module.conf)]
  let kargs ← extraKargsScan steps module_id pipe.wires kargs
  let kargs ←
    if module_type == "loop" then do
      let embed ← module.conf.embedValue
      let v ← dictGetE steps (pythonise embed.id)
      pure (dictSet kargs "embed" (PyVal.obj v))
    else pure kargs
  let kargs ←
    if module_type == "split" then
      if pipe.wires.isEmpty then pure (dictSet kargs "splits" (PyVal.intv 0))
      else Except.error (PyErr.typeError "string indices must be integers")
    else pure kargs
  let pymodule_generator_name :=
    if startswith module_type "pipe:" then pythonise module_type
    else "pipe_" ++ module_type
  if pipe.embed.any (fun kv => kv.1 == module_id) then
    Except.error (PyErr.nameError "_INPUT")
  else
    let call : BuildCall := ⟨module_id, pymodule_generator_name, pargs, kargs⟩
    pure (dictSet steps module_id (StepObj.step module_id), call)

/-- The main loop of `build_pipeline` (lines 154–242), threading the steps
dict and the trace of factory invocations; returns additionally the last
processed module id (the value the loop variable `module_id` holds after
the loop, `none` when the sequence was empty and the name stays unbound). -/
def mainLoop (pipe : Pipe) :
    List String → List (String × StepObj) → List BuildCall →
    Except (PyErr × List BuildCall)
      (List (String × StepObj) × List BuildCall × Option String)
  | [], steps, trace => .ok (steps, trace, none)
  | module_id :: rest, steps, trace =>
      match processModule pipe steps module_id with
      | .error e => .error (e, trace)
      | .ok (steps', call) =>
          match mainLoop pipe rest steps' (trace ++ [call]) with
          | .ok (s, t, lastOpt) => .ok (s, t, some (lastOpt.getD module_id))
          | .error e => .error e

/-- The value returned by `build_pipeline`: a declared-input list in
describe mode, otherwise the steps dict, the trace of factory invocations
and the step bound to the last module in topological order. -/
inductive BuildResult where
  | inputs (l : List InputTuple)
  | pipeline (steps : List (String × StepObj)) (trace : List BuildCall)
      (ret : StepObj)

/-- `build_pipeline` (lines 110–244): convert a pipe into an executable
pipeline.  In describe mode the sorted declared-input list is returned
before any step is instantiated; otherwise the synthetic root
(`pipeforever`) is instantiated and every scheduled module is processed in
topological order, the step of the last module being the result. -/
def build_pipeline (context : Context) (pipe : Pipe) :
    Except BuildErr BuildResult :=
  match topological_sort pipe.graph with
  | .error e => .error ⟨e, []⟩
  | .ok module_sequence =>
    match firstPass context pipe module_sequence [] with
    | .error e => .error ⟨e, []⟩
    | .ok pyinput =>
      if context.describe_input then .ok (.inputs (pyinput.mergeSort tupleLe))
      else
        let steps0 := [("forever", StepObj.forever)]
        match mainLoop pipe module_sequence steps0 [] with
        | .error (e, trace) =>
            .error ⟨e, "forever" :: trace.map (fun c => c.module_id)⟩
        | .ok (steps, trace, lastOpt) =>
          match lastOpt with
          | none =>
              .error ⟨.nameError "module_id",
                "forever" :: trace.map (fun c => c.module_id)⟩
          | some module_id =>
            match dictGetE steps module_id with
            | .error e =>
                .error ⟨e, "forever" :: trace.map (fun c => c.module_id)⟩
            | .ok ret => .ok (.pipeline steps trace ret)

/-! ## stringify_pipe -/

/-- An argument as assembled for rendering by `stringify_pipe`: either an
`Id(name)` wrapper (rendered bare) or a configuration (rendered as a
literal). -/
inductive StrArg where
  | idArg (s : String)
  | confArg (c : Conf)

/-- Rendering of a scalar as a Python literal.  Modelled from the spec
(§4.6 "rendered as literal argument syntax"); string literals are rendered
with double quotes. -/
def reprJVal : JVal → String
  | .null => "None"
  | .n v => toString v
  | .s v => "u\"" ++ v ++ "\""

mutual
/-- Rendering of a configuration as a Python dict literal.  Modelled from
the spec: `pipe2py.pprint2` is not under `src/`. -/
def reprConf : Conf → String
  | .null => "None"
  | .entries es => "\x7b" ++ reprEntriesList es ++ "\x7d"

/-- Rendering of a configuration entry list. -/
def reprEntriesList : List (String × CEntry) → String
  | [] => ""
  | [(k, e)] => "\"" ++ k ++ "\": " ++ reprCEntry e
  | (k, e) :: rest =>
      "\"" ++ k ++ "\": " ++ reprCEntry e ++ ", " ++ reprEntriesList rest

/-- Rendering of one configuration entry. -/
def reprCEntry : CEntry → String
  | .lit t v =>
      "\x7b\"type\": " ++ reprJVal t ++ ", \"value\": " ++ reprJVal v ++ "\x7d"
  | .embedded i t c =>
      "\x7b\"value\": \x7b\"id\": u\"" ++ i ++ "\", \"type\": u\"" ++ t ++
        "\", \"conf\": " ++ reprConf c ++ "\x7d\x7d"
end

/-- Rendering of one argument. -/
def reprStrArg : StrArg → String
  | .idArg s => s
  | .confArg c => reprConf c

/-- Modelled from the spec: `pipe2py.pprint2.repr_args` is not under
`src/`.  Renders positional arguments followed by keyword arguments as
literal call syntax. -/
def repr_args (args : List StrArg) (kwargs : List (String × StrArg)) : String :=
  String.intercalate ", "
    (args.map reprStrArg ++ kwargs.map (fun kv => kv.1 ++ "=" ++ reprStrArg kv.2))

/-- Rendering of the sorted declared-input list for the generated
function's describe branch (`unicode(sorted(pyinput))`). -/
def reprInputs (l : List InputTuple) : String :=
  "[" ++ String.intercalate ", "
    (l.map (fun t =>
      "(" ++ reprJVal t.1 ++ ", " ++ reprJVal t.2.1 ++ ", " ++
        reprJVal t.2.2.1 ++ ", " ++ reprJVal t.2.2.2.1 ++ ", " ++
        reprJVal t.2.2.2.2 ++ ")")) ++ "]"

/-- One statement of the generated pipeline function: the binding of a
local name to a constructor call, possibly wrapped in a nested submodule
definition (the `embedded` flag mirrors `module_id in pipe['embed']` at
lines 375/398 — unreachable in practice because the embedded branch at
line 324 raises first). -/
structure EmitStmt where
  module_id : String
  pymodule_name : String
  generator : String
  mod_args : List StrArg
  mod_kwargs : List (String × StrArg)
  embedded : Bool

/-- The default-input scan of `stringify_pipe` (lines 312–322): identical
wire conditions to `build_pipeline`'s scan, but binding the *name* of the
source module (last match wins). -/
def strDefaultInputScan (module_id : String) :
    List (String × Wire) → String → String
  | [], input_module => input_module
  | kv :: rest, input_module =>
      let pipe_wire := kv.2
      if pythonise pipe_wire.tgt.moduleid == module_id &&
          pipe_wire.tgt.id == "_INPUT" &&
          startswith pipe_wire.src.id "_OUTPUT" then
        strDefaultInputScan module_id rest (pythonise pipe_wire.src.moduleid)
      else strDefaultInputScan module_id rest input_module

/-- Lines 311–322 of `stringify_pipe`: `input_module = "forever"` followed
by the default-input scan. -/
def strDefaultInput (wires : List (String × Wire)) (module_id : String) : String :=
  strDefaultInputScan module_id wires "forever"

/-- The auxiliary-input scan of `stringify_pipe` (lines 335–350): one
keyword argument is *appended* per matching wire (`mod_kwargs += [...]`),
so multiple wires to one port all appear. -/
def strKwargsScan (module_id : String) :
    List (String × Wire) → List (String × StrArg) → List (String × StrArg)
  | [], mod_kwargs => mod_kwargs
  | kv :: rest, mod_kwargs =>
      let pipe_wire := kv.2
      if pythonise pipe_wire.tgt.moduleid == module_id &&
          pipe_wire.tgt.id != "_INPUT" &&
          startswith pipe_wire.src.id "_OUTPUT" then
        strKwargsScan module_id rest
          (mod_kwargs ++
            [(pythonise pipe_wire.tgt.id,
              StrArg.idArg (pythonise pipe_wire.src.moduleid))])
      else strKwargsScan module_id rest mod_kwargs

/-- Processing of one module in the main loop of `stringify_pipe`
(lines 305–420): resolve the default input by name, apply the embedded
branch — whose `assert` references the name `steps`, which is unbound in
`stringify_pipe`, so every embedded module raises `NameError` — and
assemble the statement's argument lists.  The split branch has the same
wires-dict `filter` bug as `build_pipeline` and raises `TypeError` for a
non-empty wires dict. -/
def strProcessModule (pipe : Pipe) (module_id : String) :
    Except PyErr EmitStmt := do
  let module ← dictGetE pipe.modules module_id
  let input_module := strDefaultInput pipe.wires module_id
  if pipe.embed.any (fun kv => kv.1 == module_id) then
    Except.error (PyErr.nameError "steps")
  else
    let mod_args := [StrArg.idArg "context", StrArg.idArg input_module]
    let mod_kwargs := [("conf", StrArg.confArg module.conf)]
    let mod_kwargs := strKwargsScan module_id pipe.wires mod_kwargs
    let mod_kwargs ←
      if module.type_ == "loop" then do
        let embed ← module.conf.embedValue
        let pipe_id := pythonise embed.id
        pure (mod_kwargs ++ [("embed", StrArg.idArg ("pipe_" ++ pipe_id))])
      else pure mod_kwargs
    let mod_kwargs ←
      if module.type_ == "split" then
        if pipe.wires.isEmpty then
          pure (mod_kwargs ++ [("splits", StrArg.idArg "0")])
        else Except.error (PyErr.typeError "string indices must be integers")
      else pure mod_kwargs
    let pymodule_name :=
      if startswith module.type_ "pipe:" then pythonise module.type_
      else "pipe" ++ module.type_
    let generator :=
      if startswith module.type_ "pipe:" then pythonise module.type_
      else "pipe_" ++ module.type_
    pure ⟨module_id, pymodule_name, generator, mod_args, mod_kwargs,
      pipe.embed.any (fun kv => kv.1 == module_id)⟩

/-- The main loop of `stringify_pipe`, collecting one statement per module
and tracking `prev_module` (the last processed module id; `none` models
the initial `prev_module = []`). -/
def strStmtLoop (pipe : Pipe) :
    List String → List EmitStmt → Option String →
    Except PyErr (List EmitStmt × Option String)
  | [], stmts, prev => .ok (stmts, prev)
  | module_id :: rest, stmts, _prev =>
      match strProcessModule pipe module_id with
      | .error e => .error e
      | .ok stmt => strStmtLoop pipe rest (stmts ++ [stmt]) (some module_id)

/-- The first pass of `stringify_pipe` (lines 267–284): collect one import
line per sub-pipeline module and the declared-input tuple of every module
whose configuration declares a prompt (unconditionally, unlike
`build_pipeline`'s describe-gated pass). -/
def strFirstPass (pipe : Pipe) :
    List String → List String → List InputTuple →
    Except PyErr (List String × List InputTuple)
  | [], imports, pyinput => .ok (imports, pyinput)
  | module_id :: rest, imports, pyinput => do
      let module ← dictGetE pipe.modules module_id
      let imports :=
        if startswith module.type_ "pipe:" then
          imports ++ ["import " ++ pythonise module.type_ ++ "\n"]
        else imports
      if module.conf.truthy && module.conf.hasKey "prompt" then do
        let position ← module.conf.litValue "position"
        let name ← module.conf.litValue "name"
        let prompt ← module.conf.litValue "prompt"
        let dtype ← module.conf.litType "default"
        let dvalue ← module.conf.litValue "default"
        strFirstPass pipe rest imports
          (pyinput ++ [(position, name, prompt, dtype, dvalue)])
      else strFirstPass pipe rest imports pyinput

/-- The structured content of the generated program: import lines,
declared inputs, per-module statements, and the name returned at the end. -/
structure StrCore where
  imports : List String
  pyinput : List InputTuple
  stmts : List EmitStmt
  prev : Option String

/-- The traversal of `stringify_pipe`: topological order, first pass, then
the per-module statement loop.  `stringify_pipe` is this followed by
rendering. -/
def stringify_core (_context : Context) (pipe : Pipe) : Except PyErr StrCore := do
  let module_sequence ← topological_sort pipe.graph
  let (imports, pyinput) ← strFirstPass pipe module_sequence [] []
  let (stmts, prev) ← strStmtLoop pipe module_sequence [] none
  pure ⟨imports, pyinput, stmts, prev⟩

/-- Rendering of one emitted statement (lines 375–399). -/
def renderStmt (stmt : EmitStmt) : String :=
  let indent := if stmt.embedded then "    " else ""
  (if stmt.embedded then
      "    def pipe_" ++ stmt.module_id ++
        "(context, _INPUT, conf=None, **kwargs):\n        \"Submodule\"\n"
    else "") ++
  indent ++ "    " ++ stmt.module_id ++ " = " ++ stmt.pymodule_name ++ "." ++
    stmt.generator ++ "(" ++ repr_args stmt.mod_args stmt.mod_kwargs ++ ")\n" ++
  (if stmt.embedded then "        return " ++ stmt.module_id ++ "\n" else "")

/-- `stringify_pipe` (lines 247–432): convert a pipe into a Python script.
The preamble, import lines, pipeline-function header (with the sorted
declared-input literal), one statement per module, the final return and
the standalone trailer are emitted in source order. -/
def stringify_pipe (context : Context) (pipe : Pipe) : Except PyErr String := do
  let core ← stringify_core context pipe
  let pypipe :=
    "# Pipe " ++ pipe.name ++ " generated by pipe2py\n\n" ++
    "from pipe2py import Context\nfrom pipe2py.modules import *\n\n"
  let pypipe := pypipe ++ String.join core.imports
  let pypipe := pypipe ++
    "\ndef " ++ pipe.name ++ "(context, _INPUT, conf=None, **kwargs):\n" ++
    "    \"Pipeline\"\n    if conf is None:\n        conf = \x7b\x7d\n\n" ++
    "    if context.describe_input:\n        return " ++
    reprInputs (core.pyinput.mergeSort tupleLe) ++ "\n\n" ++
    "    forever = pipeforever.pipe_forever(context, None, conf=None)\n\n"
  let pypipe := pypipe ++ String.join (core.stmts.map renderStmt)
  let pypipe := pypipe ++ "    return " ++ core.prev.getD "[]" ++ "\n"
  let pypipe := pypipe ++
    "\nif __name__ == \"__main__\":\n    context = Context()\n    p = " ++
    pipe.name ++ "(context, None)\n    for i in p:\n        print i\n"
  pure pypipe

/-! ## Interpretation of both backends (for the equivalence claim)

Both backends produce a straight-line sequence of constructor calls over
opaque operator factories: backend A as actual invocations (the build
trace), backend B as statements of the generated program.  `CallDesc` is
the common description of one call: target name, constructor, default
input (an environment name), configuration, and keyword arguments bound to
environment names.  `execDescs` executes such a sequence under an
arbitrary interpretation `F` of the factories — evaluating a call with a
repeated keyword name yields `none`, mirroring Python's rejection of
duplicate keyword arguments in the generated program. -/

/-- Common description of one constructor call made by a backend. -/
structure CallDesc where
  module_id : String
  generator : String
  input : String
  conf : Conf
  kwargs : List (String × String)

/-- The environment name a step object answers to: the synthetic root is
`forever`, a module's step is its module id, a submodule closure is bound
as `pipe_<id>`. -/
def stepName : StepObj → String
  | .forever => "forever"
  | .step i => i
  | .submodule i => "pipe_" ++ i

/-- Abstraction of one recorded factory invocation of `build_pipeline`. -/
def absBuild (c : BuildCall) : Option CallDesc :=
  match c.pargs, c.kargs with
  | [PyVal.ctx, PyVal.obj st], ("conf", PyVal.confv cf) :: rest =>
      (rest.mapM (fun (kv : String × PyVal) =>
        match kv.2 with
        | PyVal.obj st2 => some (kv.1, stepName st2)
        | _ => (none : Option (String × String)))).map
        (fun kws => ⟨c.module_id, c.generator, stepName st, cf, kws⟩)
  | _, _ => none

/-- Abstraction of one generated statement of `stringify_pipe`. -/
def absStmt (s : EmitStmt) : Option CallDesc :=
  match s.embedded, s.mod_args, s.mod_kwargs with
  | false, [StrArg.idArg "context", StrArg.idArg inp],
      ("conf", StrArg.confArg cf) :: rest =>
      (rest.mapM (fun (kv : String × StrArg) =>
        match kv.2 with
        | StrArg.idArg nm => some (kv.1, nm)
        | _ => (none : Option (String × String)))).map
        (fun kws => ⟨s.module_id, s.generator, inp, cf, kws⟩)
  | _, _, _ => none

/-- Execute a sequence of constructor calls under a factory
interpretation `F`, threading an environment of bound names. -/
def execDescs {α : Type} (F : String → α → Conf → List (String × α) → α) :
    List CallDesc → List (String × α) → Option (List (String × α))
  | [], env => some env
  | c :: rest, env => do
      let inp ← dictGet env c.input
      let kw ← c.kwargs.mapM (fun kv => (dictGet env kv.2).map (fun v => (kv.1, v)))
      if ("conf" :: c.kwargs.map (fun kv => kv.1)).Nodup then
        execDescs F rest (dictSet env c.module_id (F c.generator inp c.conf kw))
      else none

/-- Run a backend's call sequence from the initial environment (the
synthetic root bound to `forever`) and look up the returned name. -/
def runCalls {α : Type} (froot : α)
    (F : String → α → Conf → List (String × α) → α)
    (descs : List CallDesc) (retName : String) : Option α :=
  (execDescs F descs [("forever", froot)]).bind (fun env => dictGet env retName)

/-- The call sequence and returned name of backend A's result. -/
def buildDescs (r : Except BuildErr BuildResult) :
    Option (List CallDesc × String) :=
  match r with
  | .ok (.pipeline _ trace ret) =>
      (trace.mapM absBuild).map (fun ds => (ds, stepName ret))
  | _ => none

/-- The call sequence and returned name of backend B's generated program. -/
def strDescs (r : Except PyErr StrCore) : Option (List CallDesc × String) :=
  match r with
  | .ok core =>
      match core.prev with
      | some last => (core.stmts.mapM absStmt).map (fun ds => (ds, last))
      | none => none
  | .error _ => none

/-- The record stream a backend's pipeline yields under a factory
interpretation (`none` when the backend failed or its program fails). -/
def backendRun {α : Type} (froot : α)
    (F : String → α → Conf → List (String × α) → α)
    (d : Option (List CallDesc × String)) : Option α :=
  d.bind (fun p => runCalls froot F p.1 p.2)

/-! ## Derived definitions used by the theorems -/

/-- The canonical ids a module definition registers during parsing: its
own id and, for a loop module, the embedded module's id. -/
def moduleIds (m : RawModule) : List String :=
  pythonise m.id ::
    (if m.type_ == "loop" then
      match m.conf.get "embed" with
      | some (.embedded i _ _) => [pythonise i]
      | _ => []
    else [])

/-- All canonical ids registered by a document's module list, in
registration order.  The spec's §3 invariant requires these to be
pairwise distinct (an id collision is a structural error). -/
def docIds (mods : List RawModule) : List String := mods.flatMap moduleIds

/-- The wire predicate of the default-input scans: targets
`(module_id, "_INPUT")` from a default-output port. -/
def isInputWire (module_id : String) (kv : String × Wire) : Bool :=
  pythonise kv.2.tgt.moduleid == module_id && kv.2.tgt.id == "_INPUT" &&
    startswith kv.2.src.id "_OUTPUT"

/-- The wire predicate of the auxiliary-input scans: targets a
non-default input port of `module_id` from a default-output port. -/
def isAuxWire (module_id : String) (kv : String × Wire) : Bool :=
  pythonise kv.2.tgt.moduleid == module_id && kv.2.tgt.id != "_INPUT" &&
    startswith kv.2.src.id "_OUTPUT"

/-- The wire matched last in iteration order, if any. -/
def lastMatch (p : (String × Wire) → Bool) (wires : List (String × Wire)) :
    Option (String × Wire) :=
  wires.foldl (fun acc kv => if p kv then some kv else acc) none

/-- Comparison of declared-input tuples on their position component
only. -/
def posLe (a b : InputTuple) : Bool := jvalLe a.1 b.1

/-- The declared-input list as the spec words it: one tuple per scheduled
module whose configuration contains a prompt entry, in schedule order. -/
def collectPrompts (pipe : Pipe) : List String → Except PyErr (List InputTuple)
  | [] => .ok []
  | module_id :: rest => do
      let module ← dictGetE pipe.modules module_id
      if module.conf.truthy && module.conf.hasKey "prompt" then do
        let position ← module.conf.litValue "position"
        let name ← module.conf.litValue "name"
        let prompt ← module.conf.litValue "prompt"
        let dtype ← module.conf.litType "default"
        let dvalue ← module.conf.litValue "default"
        let tail ← collectPrompts pipe rest
        pure ((position, name, prompt, dtype, dvalue) :: tail)
      else collectPrompts pipe rest

/-- Parse a document, falling back to an empty pipe on a parse error (used
only to name concretely parsed pipes in closed statements; every use is
accompanied by a proof that parsing succeeded). -/
def pipeOfDoc (d : PipeDef) (nm : String) : Pipe :=
  match parse_pipe_def d nm with
  | .ok p => p
  | .error _ => ⟨"", [], [], [], []⟩

/-- The module-registration state a document produces (used to name the
pre-pruning graph of concretely parsed pipes in closed statements). -/
def parseStOfDoc (d : PipeDef) : ParseSt :=
  match parseModules d.modules ⟨[], [], []⟩ with
  | .ok st => st
  | .error _ => ⟨[], [], []⟩

/-- The dependency graph of a document after the wire pass and before
orphan pruning. -/
def preGraphOfDoc (d : PipeDef) : List (String × List String) :=
  match parseWires (parseStOfDoc d).graph d.wires with
  | .ok g => g
  | .error _ => []

/-- The run context used by the concrete witnesses (normal compile mode). -/
def ctxRun : Context := ⟨false, false⟩

/-- The run context used by the describe-mode witness. -/
def ctxDescribe : Context := ⟨true, false⟩

/-- A concrete pipe with one loop module holding an embedded module. -/
def docLoop : PipeDef :=
  ⟨[⟨"loop1", "loop", Conf.entries [("embed", CEntry.embedded "embedmod1" "fetch" Conf.null)]⟩],
   []⟩

/-- A concrete pipe with a split module and one wire. -/
def docSplit : PipeDef :=
  ⟨[⟨"fetch1", "fetch", Conf.null⟩, ⟨"split1", "split", Conf.null⟩],
   [⟨"w1", ⟨"fetch1", "_OUTPUT"⟩, ⟨"split1", "_INPUT"⟩⟩]⟩

/-- A concrete pipe in which two wires target the same auxiliary port
`RULE` of module `m1`. -/
def docDup : PipeDef :=
  ⟨[⟨"a1", "fetch", Conf.null⟩, ⟨"b1", "fetch", Conf.null⟩, ⟨"m1", "filter", Conf.null⟩],
   [⟨"w0", ⟨"a1", "_OUTPUT"⟩, ⟨"m1", "_INPUT"⟩⟩,
    ⟨"w1", ⟨"a1", "_OUTPUT"⟩, ⟨"m1", "RULE"⟩⟩,
    ⟨"w2", ⟨"b1", "_OUTPUT"⟩, ⟨"m1", "RULE"⟩⟩]⟩

/-- A concrete pipe with a wired pair and one fully disconnected module. -/
def docOrphan : PipeDef :=
  ⟨[⟨"a2", "fetch", Conf.null⟩, ⟨"b2", "transform", Conf.null⟩, ⟨"orph", "fetch", Conf.null⟩],
   [⟨"w1", ⟨"a2", "_OUTPUT"⟩, ⟨"b2", "_INPUT"⟩⟩]⟩

/-- A concrete pipe with one prompt-declaring module. -/
def docPrompt : PipeDef :=
  ⟨[⟨"in1", "textinput",
      Conf.entries [("prompt", CEntry.lit JVal.null (JVal.s "enter a value")),
                    ("position", CEntry.lit JVal.null (JVal.n 0)),
                    ("name", CEntry.lit JVal.null (JVal.s "value1")),
                    ("default", CEntry.lit (JVal.s "text") (JVal.s "abc"))]⟩,
    ⟨"out1", "transform", Conf.null⟩],
   [⟨"w1", ⟨"in1", "_OUTPUT"⟩, ⟨"out1", "_INPUT"⟩⟩]⟩

/-- A concrete two-module pipe (the spec's end-to-end example shape). -/
def docAB : PipeDef :=
  ⟨[⟨"a3", "source", Conf.null⟩, ⟨"b3", "transform", Conf.null⟩],
   [⟨"w1", ⟨"a3", "_OUTPUT"⟩, ⟨"b3", "_INPUT"⟩⟩]⟩

/-- A concrete pipe whose only wire targets a module id that is not
registered in the document. -/
def docDangle : PipeDef :=
  ⟨[⟨"a4", "fetch", Conf.null⟩],
   [⟨"w1", ⟨"a4", "_OUTPUT"⟩, ⟨"nosuch", "_INPUT"⟩⟩]⟩

/-- A trivial factory interpretation distinguishing nothing (used to
exhibit concrete backend runs). -/
def countF : String → Nat → Conf → List (String × Nat) → Nat :=
  fun _ _ _ _ => 0

/-- Correspondence between one keyword argument assembled by
`build_pipeline` (a live object or configuration) and one assembled by
`stringify_pipe` (an identifier or configuration literal): same keyword,
and the rendered form names the live form. -/
def kargRel (b : String × PyVal) (s : String × StrArg) : Prop :=
  b.1 = s.1 ∧
    ((∃ cf, b.2 = PyVal.confv cf ∧ s.2 = StrArg.confArg cf) ∨
     (∃ st, b.2 = PyVal.obj st ∧ s.2 = StrArg.idArg (stepName st)))


/-! ## Dictionary lemmas -/

theorem dictGet_nil {α : Type} (k : String) : dictGet ([] : List (String × α)) k = none := by
  simp [dictGet]

theorem dictGet_cons {α : Type} (k a : String) (v : α) (d : List (String × α)) :
    dictGet ((a, v) :: d) k = if a == k then some v else dictGet d k := by
  by_cases h : a == k <;> simp [dictGet, List.find?, h]

theorem mem_of_dictGet {α : Type} {d : List (String × α)} {k : String} {v : α}
    (h : dictGet d k = some v) : (k, v) ∈ d := by
  induction d with
  | nil => simp [dictGet] at h
  | cons kv rest ih =>
      obtain ⟨a, w⟩ := kv
      rw [dictGet_cons] at h
      by_cases ha : a == k
      · simp only [ha, if_true, Option.some.injEq] at h
        subst h
        have : a = k := by simpa using ha
        subst this
        exact List.mem_cons_self _ _
      · simp only [ha, if_false] at h
        exact List.mem_cons_of_mem _ (ih h)

theorem dictGet_dictSet_self {α : Type} (d : List (String × α)) (k : String) (v : α) :
    dictGet (dictSet d k v) k = some v := by
  induction d with
  | nil => simp [dictSet, dictGet_cons]
  | cons kv rest ih =>
      obtain ⟨a, w⟩ := kv
      by_cases ha : a == k <;> simp [dictSet, ha, dictGet_cons, ih]

theorem dictGet_dictSet_ne {α : Type} (d : List (String × α)) (k k' : String) (v : α)
    (h : ¬ k' = k) : dictGet (dictSet d k v) k' = dictGet d k' := by
  induction d with
  | nil =>
      have : (k == k') = false := by
        simp
        intro hc
        exact h hc.symm
      simp [dictSet, dictGet_cons, this, dictGet_nil]
  | cons kv rest ih =>
      obtain ⟨a, w⟩ := kv
      by_cases ha : a == k
      · have hak : a = k := by simpa using ha
        subst hak
        have : (a == k') = false := by
          simp
          intro hc
          exact h hc.symm
        simp [dictSet, dictGet_cons, this]
      · simp [dictSet, ha, dictGet_cons, ih]

theorem dictGet_dictSet {α : Type} (d : List (String × α)) (k k' : String) (v : α) :
    dictGet (dictSet d k v) k' = if k = k' then some v else dictGet d k' := by
  by_cases h : k = k'
  · subst h
    simp [dictGet_dictSet_self]
  · simp only [h, if_false]
    exact dictGet_dictSet_ne d k k' v (fun hc => h hc.symm)

theorem keys_dictSet_subset {α : Type} (d : List (String × α)) (k : String) (v : α) :
    ∀ a, a ∈ (dictSet d k v).map (fun kv => kv.1) →
      a ∈ d.map (fun kv => kv.1) ∨ a = k := by
  induction d with
  | nil =>
      intro a ha
      simp [dictSet] at ha
      right
      exact ha
  | cons kv rest ih =>
      intro a ha
      by_cases hb : kv.1 == k
      · rw [show dictSet (kv :: rest) k v = (k, v) :: rest by simp [dictSet, hb]] at ha
        simp only [List.map_cons, List.mem_cons] at ha ⊢
        rcases ha with h | h
        · right; exact h
        · left; right; exact h
      · rw [show dictSet (kv :: rest) k v = kv :: dictSet rest k v by simp [dictSet, hb]] at ha
        simp only [List.map_cons, List.mem_cons] at ha ⊢
        rcases ha with h | h
        · left; left; exact h
        · rcases ih a h with h2 | h2
          · left; right; exact h2
          · right; exact h2

theorem dictGet_none_of_not_key {α : Type} (d : List (String × α)) (k : String)
    (h : ∀ kv ∈ d, ¬ kv.1 = k) : dictGet d k = none := by
  induction d with
  | nil => simp [dictGet]
  | cons kv rest ih =>
      obtain ⟨a, w⟩ := kv
      rw [dictGet_cons]
      have ha : (a == k) = false := by
        simp
        exact h (a, w) (List.mem_cons_self _ _)
      simp only [ha, if_false]
      exact ih (fun kv hkv => h kv (List.mem_cons_of_mem _ hkv))

theorem dictGet_isSome_of_mem {α : Type} {d : List (String × α)} {k : String} {v : α}
    (h : (k, v) ∈ d) : (dictGet d k).isSome := by
  induction d with
  | nil => simp at h
  | cons kv rest ih =>
      obtain ⟨a, w⟩ := kv
      rw [dictGet_cons]
      by_cases ha : a == k
      · simp [ha]
      · rcases List.mem_cons.1 h with h1 | h1
        · have : a = k := by rw [Prod.mk.injEq] at h1; exact h1.1.symm ▸ rfl
          simp [this] at ha
        · simp only [ha, if_false]
          exact ih h1

/-! ## Topological-sort lemmas -/

theorem strMin_choice (a b : String) : strMin a b = a ∨ strMin a b = b := by
  unfold strMin
  by_cases h : strLtB b.data a.data = true
  · rw [if_pos h]
    exact Or.inr rfl
  · rw [if_neg h]
    exact Or.inl rfl

theorem foldl_strMin_mem : ∀ (rest : List String) (a : String),
    rest.foldl strMin a = a ∨ rest.foldl strMin a ∈ rest := by
  intro rest
  induction rest with
  | nil => intro a; exact Or.inl rfl
  | cons b rest ih =>
      intro a
      rw [List.foldl_cons]
      rcases ih (strMin a b) with h | h
      · rw [h]
        rcases strMin_choice a b with h2 | h2
        · exact Or.inl h2
        · exact Or.inr (by rw [h2]; exact List.mem_cons_self _ _)
      · exact Or.inr (List.mem_cons_of_mem _ h)

theorem pickMin_mem {l : List String} {n : String} (h : pickMin l = some n) :
    n ∈ l := by
  cases l with
  | nil => exact Option.noConfusion h
  | cons a rest =>
      unfold pickMin at h
      rw [Option.some.injEq] at h
      subst h
      rcases foldl_strMin_mem rest a with h | h
      · rw [h]
        exact List.mem_cons_self _ _
      · exact List.mem_cons_of_mem _ h

theorem eligible_subset (g : List (String × List String)) (remaining : List String) :
    ∀ n ∈ eligible g remaining, n ∈ remaining := by
  intro n hn
  exact (List.mem_filter.1 hn).1

theorem topsortAux_mem {g : List (String × List String)} :
    ∀ (fuel : Nat) (remaining acc out : List String),
      topsortAux g fuel remaining acc = .ok out →
      ∀ n, n ∈ remaining ∨ n ∈ acc → n ∈ out := by
  intro fuel
  induction fuel with
  | zero =>
      intro remaining acc out h n hn
      unfold topsortAux at h
      by_cases hr : remaining.isEmpty
      · simp only [hr, if_true, Except.ok.injEq] at h
        subst h
        rcases hn with h1 | h1
        · rw [List.isEmpty_iff] at hr; subst hr; simp at h1
        · simpa using h1
      · simp [hr] at h
  | succ fuel ih =>
      intro remaining acc out h n hn
      unfold topsortAux at h
      by_cases hr : remaining.isEmpty
      · simp only [hr, if_true, Except.ok.injEq] at h
        subst h
        rcases hn with h1 | h1
        · rw [List.isEmpty_iff] at hr; subst hr; simp at h1
        · simpa using h1
      · simp only [hr, if_false] at h
        cases hp : pickMin (eligible g remaining) with
        | none => rw [hp] at h; simp at h
        | some m =>
            rw [hp] at h
            apply ih _ _ _ h
            rcases hn with h1 | h1
            · by_cases hnm : n = m
              · right; subst hnm; exact List.mem_cons_self _ _
              · left; exact (List.mem_erase_of_ne hnm).2 h1
            · right; exact List.mem_cons_of_mem _ h1

theorem topsortAux_subset {g : List (String × List String)} :
    ∀ (fuel : Nat) (remaining acc out : List String),
      topsortAux g fuel remaining acc = .ok out →
      ∀ n ∈ out, n ∈ remaining ∨ n ∈ acc := by
  intro fuel
  induction fuel with
  | zero =>
      intro remaining acc out h n hn
      unfold topsortAux at h
      by_cases hr : remaining.isEmpty
      · simp only [hr, if_true, Except.ok.injEq] at h
        subst h
        right
        simpa using hn
      · simp [hr] at h
  | succ fuel ih =>
      intro remaining acc out h n hn
      unfold topsortAux at h
      by_cases hr : remaining.isEmpty
      · simp only [hr, if_true, Except.ok.injEq] at h
        subst h
        right
        simpa using hn
      · simp only [hr, if_false] at h
        cases hp : pickMin (eligible g remaining) with
        | none => rw [hp] at h; simp at h
        | some m =>
            rw [hp] at h
            rcases ih _ _ _ h n hn with h1 | h1
            · left; exact List.mem_of_mem_erase h1
            · rcases List.mem_cons.1 h1 with h2 | h2
              · left
                subst h2
                exact eligible_subset g remaining n (pickMin_mem hp)
              · right; exact h2

theorem topological_sort_mem {g : List (String × List String)} {out : List String}
    (h : topological_sort g = .ok out) : ∀ n ∈ graphNodes g, n ∈ out := by
  intro n hn
  exact topsortAux_mem _ _ _ _ h n (Or.inl hn)

theorem topological_sort_subset {g : List (String × List String)} {out : List String}
    (h : topological_sort g = .ok out) : ∀ n ∈ out, n ∈ graphNodes g := by
  intro n hn
  rcases topsortAux_subset _ _ _ _ h n hn with h1 | h1
  · exact h1
  · simp at h1

theorem mem_graphNodes_of_key {g : List (String × List String)} {n : String}
    (h : (dictGet g n).isSome) : n ∈ graphNodes g := by
  unfold graphNodes
  rw [List.mem_dedup]
  apply List.mem_append_left
  cases hv : dictGet g n with
  | none => rw [hv] at h; simp at h
  | some l =>
      have := mem_of_dictGet hv
      exact List.mem_map.2 ⟨(n, l), this, rfl⟩

theorem mem_graphNodes_of_succ {g : List (String × List String)}
    {k n : String} {l : List String} (hk : dictGet g k = some l) (hn : n ∈ l) :
    n ∈ graphNodes g := by
  unfold graphNodes
  rw [List.mem_dedup]
  apply List.mem_append_right
  exact List.mem_flatMap.2 ⟨(k, l), mem_of_dictGet hk, hn⟩

/-! ## Orphan-pruning lemmas -/

theorem dictGet_filter_ne {α : Type} (d : List (String × α)) (m n : String)
    (h : ¬ n = m) :
    dictGet (d.filter (fun kv => kv.1 != m)) n = dictGet d n := by
  induction d with
  | nil => simp
  | cons kv rest ih =>
      obtain ⟨a, w⟩ := kv
      by_cases ham : a = m
      · subst ham
        have h1 : ((a, w).1 != a) = false := by simp
        rw [List.filter_cons_of_neg (by simp [h1]), dictGet_cons]
        have h2 : (a == n) = false := by
          simp
          intro hc
          exact h hc.symm
        simp only [h2, if_false]
        exact ih
      · have h1 : ((a, w).1 != m) = true := by simpa using ham
        rw [List.filter_cons_of_pos (by simp [h1]), dictGet_cons, dictGet_cons]
        by_cases han : a == n
        · simp [han]
        · simp only [han, if_false]
          exact ih

theorem dictGet_filter_self {α : Type} (d : List (String × α)) (m : String) :
    dictGet (d.filter (fun kv => kv.1 != m)) m = none := by
  apply dictGet_none_of_not_key
  intro kv hkv
  have := (List.mem_filter.1 hkv).2
  simpa using this

theorem mem_of_mem_pruneStep {cur : List (String × List String)} {node : String}
    {kv : String × List String} (h : kv ∈ pruneStep cur node) : kv ∈ cur := by
  unfold pruneStep at h
  split at h
  · split at h
    · exact (List.mem_filter.1 h).1
    · exact h
  · exact h

theorem mem_of_mem_pruneFold {nodes : List String} :
    ∀ {cur : List (String × List String)} {kv : String × List String},
      kv ∈ nodes.foldl pruneStep cur → kv ∈ cur := by
  induction nodes with
  | nil => intro cur kv h; simpa using h
  | cons m rest ih =>
      intro cur kv h
      rw [List.foldl_cons] at h
      exact mem_of_mem_pruneStep (ih h)

theorem pruneStep_none_stable {cur : List (String × List String)}
    {node n : String} (h : dictGet cur n = none) :
    dictGet (pruneStep cur node) n = none := by
  cases hv : dictGet (pruneStep cur node) n with
  | none => rfl
  | some l =>
      have hmem := mem_of_dictGet hv
      have := dictGet_isSome_of_mem (mem_of_mem_pruneStep hmem)
      rw [h] at this
      simp at this

theorem pruneFold_none_stable {nodes : List String} :
    ∀ {cur : List (String × List String)} {n : String},
      dictGet cur n = none → dictGet (nodes.foldl pruneStep cur) n = none := by
  induction nodes with
  | nil => intro cur n h; simpa using h
  | cons m rest ih =>
      intro cur n h
      rw [List.foldl_cons]
      exact ih (pruneStep_none_stable h)

theorem pruneStep_keeps {cur : List (String × List String)}
    {node n : String} {l : List String} (h : dictGet cur n = some l)
    (hne : l ≠ []) : dictGet (pruneStep cur node) n = some l := by
  unfold pruneStep
  split
  next succs hv =>
    split
    next hc =>
      by_cases hnn : n = node
      · subst hnn
        rw [h, Option.some.injEq] at hv
        subst hv
        have hs : l.isEmpty = true := by
          simp only [Bool.and_eq_true] at hc
          exact hc.1
        rw [List.isEmpty_iff] at hs
        exact absurd hs hne
      · rw [dictGet_filter_ne _ _ _ hnn]
        exact h
    next _ => exact h
  next _ => exact h

theorem pruneFold_keeps {nodes : List String} :
    ∀ {cur : List (String × List String)} {n : String} {l : List String},
      dictGet cur n = some l → l ≠ [] →
      dictGet (nodes.foldl pruneStep cur) n = some l := by
  induction nodes with
  | nil => intro cur n l h _; simpa using h
  | cons m rest ih =>
      intro cur n l h hne
      rw [List.foldl_cons]
      exact ih (pruneStep_keeps h hne) hne

theorem pruneOrphans_keeps {g : List (String × List String)} {n : String}
    {l : List String} (h : dictGet g n = some l) (hne : l ≠ []) :
    dictGet (pruneOrphans g) n = some l :=
  pruneFold_keeps h hne

theorem pruneStep_other {cur : List (String × List String)}
    {node n : String} {l : List String} (h : dictGet cur n = some l)
    (hmn : ¬ node = n) : dictGet (pruneStep cur node) n = some l := by
  unfold pruneStep
  split
  next succs _ =>
    split
    next _ =>
      rw [dictGet_filter_ne _ _ _ (fun hc2 => hmn hc2.symm)]
      exact h
    next _ => exact h
  next _ => exact h

theorem pruneFold_removes {n : String} :
    ∀ (nodes : List String) (cur : List (String × List String)),
      n ∈ nodes →
      dictGet cur n = some [] →
      (∀ kv ∈ cur, n ∉ kv.2) →
      dictGet (nodes.foldl pruneStep cur) n = none := by
  intro nodes
  induction nodes with
  | nil => intro cur hmem _ _; simp at hmem
  | cons m rest ih =>
      intro cur hmem hget htgt
      rw [List.foldl_cons]
      by_cases hmn : m = n
      · subst hmn
        apply pruneFold_none_stable
        unfold pruneStep
        split
        next succs hv =>
          rw [hget, Option.some.injEq] at hv
          subst hv
          split
          next _ => exact dictGet_filter_self cur m
          next hc =>
            exfalso
            apply hc
            simp only [List.isEmpty_nil, Bool.true_and, Bool.not_eq_true']
            rw [List.any_eq_false]
            intro kv hkv
            simpa using htgt kv hkv
        next hv =>
          rw [hget] at hv
          simp at hv
      · have hmem' : n ∈ rest := by
          rcases List.mem_cons.1 hmem with h1 | h1
          · exact absurd h1.symm hmn
          · exact h1
        apply ih (pruneStep cur m) hmem'
        · exact pruneStep_other hget hmn
        · intro kv hkv
          exact htgt kv (mem_of_mem_pruneStep hkv)

theorem pruneOrphans_removes {g : List (String × List String)} {n : String}
    (hget : dictGet g n = some [])
    (htgt : ∀ kv ∈ g, n ∉ kv.2) :
    dictGet (pruneOrphans g) n = none := by
  apply pruneFold_removes
  · exact List.mem_map.2 ⟨(n, []), mem_of_dictGet hget, rfl⟩
  · exact hget
  · exact htgt

/-! ## Parse-phase lemmas -/

theorem not_key_of_dictGet_none {α : Type} {d : List (String × α)} {k : String}
    (h : dictGet d k = none) : ∀ kv ∈ d, ¬ kv.1 = k := by
  intro kv hkv hc
  obtain ⟨a, w⟩ := kv
  simp only at hc
  subst hc
  have := dictGet_isSome_of_mem hkv
  rw [h] at this
  simp at this

theorem dictGet_isSome_dictSet {α : Type} {d : List (String × α)} {k k' : String}
    (v : α) (h : (dictGet d k).isSome) :
    (dictGet (dictSet d k' v) k).isSome := by
  rw [dictGet_dictSet]
  by_cases hk : k' = k <;> simp [hk, h]

theorem any_key_of_isSome {α : Type} {d : List (String × α)} {k : String}
    (h : (dictGet d k).isSome) : (d.any (fun kv => kv.1 == k)) = true := by
  cases hv : dictGet d k with
  | none => rw [hv] at h; simp at h
  | some v =>
      rw [List.any_eq_true]
      exact ⟨(k, v), mem_of_dictGet hv, by simp⟩

theorem not_mem_graphNodes {g : List (String × List String)} {n : String}
    (h1 : dictGet g n = none) (h2 : ∀ kv ∈ g, n ∉ kv.2) :
    n ∉ graphNodes g := by
  unfold graphNodes
  rw [List.mem_dedup]
  intro h
  rcases List.mem_append.1 h with h3 | h3
  · obtain ⟨kv, hkv, hkv2⟩ := List.mem_map.1 h3
    exact not_key_of_dictGet_none h1 kv hkv hkv2
  · obtain ⟨kv, hkv, hkv2⟩ := List.mem_flatMap.1 h3
    exact h2 kv hkv hkv2

theorem graphAppend_ok {g g1 : List (String × List String)} {a v : String}
    (h : graphAppend g a v = .ok g1) :
    ∃ l0, dictGet g a = some l0 ∧ g1 = dictSet g a (l0 ++ [v]) := by
  unfold graphAppend at h
  cases hv : dictGet g a with
  | none => rw [hv] at h; simp at h
  | some l0 =>
      rw [hv] at h
      simp only [Except.ok.injEq] at h
      exact ⟨l0, rfl, h.symm⟩

theorem except_bind_ok {ε α β : Type} (a : α) (f : α → Except ε β) :
    (Except.ok a >>= f) = f a := rfl

theorem except_bind_error {ε α β : Type} (e : ε) (f : α → Except ε β) :
    ((Except.error e : Except ε α) >>= f) = Except.error e := rfl

theorem parseWires_nil (g : List (String × List String)) :
    parseWires g [] = .ok g := rfl

theorem parseWires_cons (g : List (String × List String)) (w : Wire) (rest : List Wire) :
    parseWires g (w :: rest) =
      (graphAppend g (pythonise w.src.moduleid) (pythonise w.tgt.moduleid) >>=
        fun g1 => parseWires g1 rest) := rfl

theorem parseWires_isSome {ws : List Wire} :
    ∀ {g g' : List (String × List String)}, parseWires g ws = .ok g' →
      ∀ k, (dictGet g' k).isSome = (dictGet g k).isSome := by
  induction ws with
  | nil =>
      intro g g' h k
      rw [parseWires_nil, Except.ok.injEq] at h
      subst h
      rfl
  | cons w rest ih =>
      intro g g' h k
      rw [parseWires_cons] at h
      cases ha : graphAppend g (pythonise w.src.moduleid) (pythonise w.tgt.moduleid) with
      | error e =>
          rw [ha, except_bind_error] at h
          simp at h
      | ok g1 =>
          rw [ha, except_bind_ok] at h
          obtain ⟨l0, hl0, hg1⟩ := graphAppend_ok ha
          rw [ih h k, hg1, dictGet_dictSet]
          by_cases hk : pythonise w.src.moduleid = k
          · subst hk
            simp [hl0]
          · simp [hk]

theorem parseWires_nonempty {ws : List Wire} :
    ∀ {g g' : List (String × List String)}, parseWires g ws = .ok g' →
      ∀ {k l}, dictGet g k = some l → l ≠ [] →
        ∃ l', dictGet g' k = some l' ∧ l' ≠ [] := by
  induction ws with
  | nil =>
      intro g g' h k l hget hne
      rw [parseWires_nil, Except.ok.injEq] at h
      subst h
      exact ⟨l, hget, hne⟩
  | cons w rest ih =>
      intro g g' h k l hget hne
      rw [parseWires_cons] at h
      cases ha : graphAppend g (pythonise w.src.moduleid) (pythonise w.tgt.moduleid) with
      | error e =>
          rw [ha, except_bind_error] at h
          simp at h
      | ok g1 =>
          rw [ha, except_bind_ok] at h
          obtain ⟨l0, hl0, hg1⟩ := graphAppend_ok ha
          by_cases hk : pythonise w.src.moduleid = k
          · subst hk
            rw [hget, Option.some.injEq] at hl0
            subst hl0
            exact @ih g1 g' h (pythonise w.src.moduleid)
              (l ++ [pythonise w.tgt.moduleid])
              (by rw [hg1]; exact dictGet_dictSet_self _ _ _) (by simp)
          · exact @ih g1 g' h k l
              (by rw [hg1, dictGet_dictSet_ne _ _ _ _ (fun hc => hk hc.symm)]; exact hget)
              hne

theorem embedValue_get {c : Conf} {em : RawModule} (h : c.embedValue = .ok em) :
    c.get "embed" = some (.embedded em.id em.type_ em.conf) := by
  unfold Conf.embedValue at h
  cases hv : c.get "embed" with
  | none => rw [hv] at h; simp at h
  | some e =>
      rw [hv] at h
      cases e with
      | lit t v => simp at h
      | embedded i t cf =>
          simp only [Except.ok.injEq] at h
          subst h
          rfl

theorem parseModule_eq (st : ParseSt) (m : RawModule) :
    parseModule st m =
      (if m.type_ == "loop" then
        m.conf.embedValue >>= fun embed =>
          graphAppend (dictSet (dictSet st.graph (pythonise m.id) [])
              (pythonise embed.id) []) (pythonise embed.id) (pythonise m.id) >>=
            fun g =>
              Except.ok ⟨dictSet (dictSet st.modules (pythonise m.id) m)
                  (pythonise embed.id) embed,
                dictSet st.embed (pythonise embed.id) embed, g⟩
      else
        Except.ok ⟨dictSet st.modules (pythonise m.id) m, st.embed,
          dictSet st.graph (pythonise m.id) []⟩) := by
  unfold parseModule
  by_cases ht : m.type_ == "loop"
  · simp only [ht, if_true]
    cases m.conf.embedValue with
    | error e => rfl
    | ok em => rfl
  · simp only [ht, if_false]
    rfl

theorem parseModules_nil (st : ParseSt) : parseModules [] st = .ok st := rfl

theorem parseModules_cons (m : RawModule) (rest : List RawModule) (st : ParseSt) :
    parseModules (m :: rest) st =
      (parseModule st m >>= fun st' => parseModules rest st') := rfl

theorem parseModule_preserve {st st1 : ParseSt} {m : RawModule} {k : String}
    (h : parseModule st m = .ok st1) (hk : k ∉ moduleIds m) :
    dictGet st1.graph k = dictGet st.graph k ∧
    dictGet st1.embed k = dictGet st.embed k ∧
    dictGet st1.modules k = dictGet st.modules k := by
  have hkm : ¬ k = pythonise m.id := by
    intro hc
    exact hk (by rw [hc]; exact List.mem_cons_self _ _)
  rw [parseModule_eq] at h
  by_cases ht : m.type_ == "loop"
  · rw [if_pos ht] at h
    cases he : m.conf.embedValue with
    | error e => rw [he, except_bind_error] at h; simp at h
    | ok em =>
        rw [he, except_bind_ok] at h
        have hke : ¬ k = pythonise em.id := by
          intro hc
          apply hk
          unfold moduleIds
          rw [if_pos ht, embedValue_get he]
          rw [hc]
          simp
        cases ha : graphAppend (dictSet (dictSet st.graph (pythonise m.id) [])
            (pythonise em.id) []) (pythonise em.id) (pythonise m.id) with
        | error e => rw [ha, except_bind_error] at h; simp at h
        | ok g3 =>
            rw [ha, except_bind_ok, Except.ok.injEq] at h
            subst h
            obtain ⟨l0, _, hg3⟩ := graphAppend_ok ha
            refine ⟨?_, ?_, ?_⟩
            · rw [hg3,
                dictGet_dictSet_ne _ _ _ _ hke,
                dictGet_dictSet_ne _ _ _ _ hke,
                dictGet_dictSet_ne _ _ _ _ hkm]
            · exact dictGet_dictSet_ne _ _ _ _ hke
            · rw [dictGet_dictSet_ne _ _ _ _ hke,
                dictGet_dictSet_ne _ _ _ _ hkm]
  · rw [if_neg ht, Except.ok.injEq] at h
    subst h
    exact ⟨dictGet_dictSet_ne _ _ _ _ hkm, rfl, dictGet_dictSet_ne _ _ _ _ hkm⟩

theorem parseModules_preserve {mods : List RawModule} :
    ∀ {st st' : ParseSt} {k : String}, parseModules mods st = .ok st' →
      k ∉ docIds mods →
      dictGet st'.graph k = dictGet st.graph k ∧
      dictGet st'.embed k = dictGet st.embed k ∧
      dictGet st'.modules k = dictGet st.modules k := by
  induction mods with
  | nil =>
      intro st st' k h _
      rw [parseModules_nil, Except.ok.injEq] at h
      subst h
      exact ⟨rfl, rfl, rfl⟩
  | cons m rest ih =>
      intro st st' k h hk
      rw [parseModules_cons] at h
      have hk1 : k ∉ moduleIds m := by
        intro hc
        exact hk (by unfold docIds; rw [List.flatMap_cons]; exact List.mem_append_left _ hc)
      have hk2 : k ∉ docIds rest := by
        intro hc
        exact hk (by unfold docIds; rw [List.flatMap_cons]; exact List.mem_append_right _ hc)
      cases hp : parseModule st m with
      | error e => rw [hp, except_bind_error] at h; simp at h
      | ok st1 =>
          rw [hp, except_bind_ok] at h
          obtain ⟨h1, h2, h3⟩ := ih h hk2
          obtain ⟨h4, h5, h6⟩ := parseModule_preserve hp hk1
          exact ⟨h1.trans h4, h2.trans h5, h3.trans h6⟩

theorem parseModule_inv {st st1 : ParseSt} {m : RawModule}
    (h : parseModule st m = .ok st1)
    (hinv : ∀ k, (dictGet st.graph k).isSome → (dictGet st.modules k).isSome) :
    ∀ k, (dictGet st1.graph k).isSome → (dictGet st1.modules k).isSome := by
  rw [parseModule_eq] at h
  by_cases ht : m.type_ == "loop"
  · rw [if_pos ht] at h
    cases he : m.conf.embedValue with
    | error e => rw [he, except_bind_error] at h; simp at h
    | ok em =>
        rw [he, except_bind_ok] at h
        cases ha : graphAppend (dictSet (dictSet st.graph (pythonise m.id) [])
            (pythonise em.id) []) (pythonise em.id) (pythonise m.id) with
        | error e => rw [ha, except_bind_error] at h; simp at h
        | ok g3 =>
            rw [ha, except_bind_ok, Except.ok.injEq] at h
            subst h
            intro k hg
            obtain ⟨l0, _, hg3⟩ := graphAppend_ok ha
            simp only at hg ⊢
            by_cases hke : pythonise em.id = k
            · rw [dictGet_dictSet]
              simp [hke]
            · rw [dictGet_dictSet_ne _ _ _ _ (fun hc => hke hc.symm)]
              rw [hg3, dictGet_dictSet_ne _ _ _ _ (fun hc => hke hc.symm),
                dictGet_dictSet_ne _ _ _ _ (fun hc => hke hc.symm)] at hg
              by_cases hkm : pythonise m.id = k
              · rw [dictGet_dictSet]
                simp [hkm]
              · rw [dictGet_dictSet_ne _ _ _ _ (fun hc => hkm hc.symm)]
                rw [dictGet_dictSet_ne _ _ _ _ (fun hc => hkm hc.symm)] at hg
                exact hinv k hg
  · rw [if_neg ht, Except.ok.injEq] at h
    subst h
    intro k hg
    simp only at hg ⊢
    by_cases hkm : pythonise m.id = k
    · rw [dictGet_dictSet]
      simp [hkm]
    · rw [dictGet_dictSet_ne _ _ _ _ (fun hc => hkm hc.symm)]
      rw [dictGet_dictSet_ne _ _ _ _ (fun hc => hkm hc.symm)] at hg
      exact hinv k hg

theorem parseModules_inv {mods : List RawModule} :
    ∀ {st st' : ParseSt}, parseModules mods st = .ok st' →
      (∀ k, (dictGet st.graph k).isSome → (dictGet st.modules k).isSome) →
      ∀ k, (dictGet st'.graph k).isSome → (dictGet st'.modules k).isSome := by
  induction mods with
  | nil =>
      intro st st' h hinv
      rw [parseModules_nil, Except.ok.injEq] at h
      subst h
      exact hinv
  | cons m rest ih =>
      intro st st' h hinv
      rw [parseModules_cons] at h
      cases hp : parseModule st m with
      | error e => rw [hp, except_bind_error] at h; simp at h
      | ok st1 =>
          rw [hp, except_bind_ok] at h
          exact ih h (parseModule_inv hp hinv)

theorem parseModules_loop {mods : List RawModule} :
    ∀ {st st' : ParseSt} {m : RawModule}, parseModules mods st = .ok st' →
      m ∈ mods → m.type_ = "loop" → (docIds mods).Nodup →
      ∃ em l, m.conf.embedValue = .ok em ∧
        dictGet st'.graph (pythonise em.id) = some l ∧ l ≠ [] ∧
        (dictGet st'.embed (pythonise em.id)).isSome := by
  induction mods with
  | nil => intro st st' m h hm ht hnd; simp at hm
  | cons m0 rest ih =>
      intro st st' m h hm ht hnd
      rw [parseModules_cons] at h
      cases hp : parseModule st m0 with
      | error e => rw [hp, except_bind_error] at h; simp at h
      | ok st1 =>
          rw [hp, except_bind_ok] at h
          have hnd' : (moduleIds m0 ++ docIds rest).Nodup := by
            unfold docIds at hnd
            rw [List.flatMap_cons] at hnd
            exact hnd
          rcases List.mem_cons.1 hm with hm0 | hmr
          · subst hm0
            rw [parseModule_eq] at hp
            have ht' : (m.type_ == "loop") = true := by simp [ht]
            rw [if_pos ht'] at hp
            cases he : m.conf.embedValue with
            | error e => rw [he, except_bind_error] at hp; simp at hp
            | ok em =>
                rw [he, except_bind_ok] at hp
                cases ha : graphAppend (dictSet (dictSet st.graph (pythonise m.id) [])
                    (pythonise em.id) []) (pythonise em.id) (pythonise m.id) with
                | error e => rw [ha, except_bind_error] at hp; simp at hp
                | ok g3 =>
                    rw [ha, except_bind_ok, Except.ok.injEq] at hp
                    subst hp
                    obtain ⟨l0, hl0, hg3⟩ := graphAppend_ok ha
                    have heid : dictGet (dictSet (dictSet st.graph (pythonise m.id) [])
                        (pythonise em.id) []) (pythonise em.id) = some [] :=
                      dictGet_dictSet_self _ _ _
                    rw [heid, Option.some.injEq] at hl0
                    subst hl0
                    have hg3get : dictGet g3 (pythonise em.id) =
                        some ([] ++ [pythonise m.id]) := by
                      rw [hg3, dictGet_dictSet_self]
                    have hmemid : pythonise em.id ∈ moduleIds m := by
                      unfold moduleIds
                      rw [if_pos ht', embedValue_get he]
                      simp
                    have heidfresh : pythonise em.id ∉ docIds rest := by
                      have hdisj := (List.nodup_append.1 hnd').2.2
                      exact hdisj hmemid
                    obtain ⟨hpg, hpe, _⟩ := parseModules_preserve h heidfresh
                    refine ⟨em, [pythonise m.id], rfl, ?_, by simp, ?_⟩
                    · rw [hpg]
                      simpa using hg3get
                    · rw [hpe]
                      simp only
                      rw [dictGet_dictSet_self]
                      simp
          · exact ih h hmr ht (List.nodup_append.1 hnd').2.1

theorem parse_pipe_def_ok {d : PipeDef} {nm : String} {p : Pipe}
    (h : parse_pipe_def d nm = .ok p) :
    ∃ st g0, parseModules d.modules ⟨[], [], []⟩ = .ok st ∧
      parseWires st.graph d.wires = .ok g0 ∧
      p = ⟨pythonise nm, st.modules, st.embed, pruneOrphans g0,
        d.wires.foldl (fun dd w => dictSet dd (pythonise w.id) w) []⟩ := by
  unfold parse_pipe_def at h
  cases h1 : parseModules d.modules ⟨[], [], []⟩ with
  | error e => rw [h1, except_bind_error] at h; simp at h
  | ok st =>
      rw [h1] at h
      simp only [except_bind_ok] at h
      cases h2 : parseWires st.graph d.wires with
      | error e => rw [h2, except_bind_error] at h; simp at h
      | ok g0 =>
          rw [h2] at h
          simp only [except_bind_ok] at h
          refine ⟨st, g0, rfl, h2, ?_⟩
          have h3 : Except.ok (ε := PyErr)
              (Pipe.mk (pythonise nm) st.modules st.embed (pruneOrphans g0)
                (d.wires.foldl (fun dd w => dictSet dd (pythonise w.id) w) [])) = .ok p := h
          rw [Except.ok.injEq] at h3
          exact h3.symm

/-! ## Failure of both backends on embedded modules -/

theorem pyEq_obj_pair (s : StepObj) (a b : PyVal) :
    pyEq (PyVal.obj s) (PyVal.pair a b) = false := rfl

theorem defaultInputScan_nil (steps : List (String × StepObj)) (mid : String)
    (im : PyVal) : defaultInputScan steps mid [] im = .ok im := rfl

theorem defaultInputScan_cons (steps : List (String × StepObj)) (mid : String)
    (kv : String × Wire) (rest : List (String × Wire)) (im : PyVal) :
    defaultInputScan steps mid (kv :: rest) im =
      (if pythonise kv.2.tgt.moduleid == mid && kv.2.tgt.id == "_INPUT" &&
          startswith kv.2.src.id "_OUTPUT" then
        match dictGetE steps (pythonise kv.2.src.moduleid) with
        | .ok v => defaultInputScan steps mid rest (PyVal.obj v)
        | .error e => .error e
      else defaultInputScan steps mid rest im) := rfl

theorem defaultInputScan_isObj {steps : List (String × StepObj)} {module_id : String} :
    ∀ {wires : List (String × Wire)} {st0 : StepObj} {v : PyVal},
      defaultInputScan steps module_id wires (PyVal.obj st0) = .ok v →
      ∃ st, v = PyVal.obj st := by
  intro wires
  induction wires with
  | nil =>
      intro st0 v h
      rw [defaultInputScan_nil, Except.ok.injEq] at h
      exact ⟨st0, h.symm⟩
  | cons kv rest ih =>
      intro st0 v h
      rw [defaultInputScan_cons] at h
      by_cases hc : (pythonise kv.2.tgt.moduleid == module_id && kv.2.tgt.id == "_INPUT" &&
          startswith kv.2.src.id "_OUTPUT") = true
      · rw [if_pos hc] at h
        cases hd : dictGetE steps (pythonise kv.2.src.moduleid) with
        | error e => rw [hd] at h; simp at h
        | ok w =>
            rw [hd] at h
            exact ih h
      · rw [if_neg hc] at h
        exact ih h

theorem buildDefaultInput_isObj {steps : List (String × StepObj)}
    {wires : List (String × Wire)} {module_id : String} {v : PyVal}
    (h : buildDefaultInput steps wires module_id = .ok v) :
    ∃ st, v = PyVal.obj st := by
  unfold buildDefaultInput at h
  cases hf : dictGetE steps "forever" with
  | error e => rw [hf, except_bind_error] at h; simp at h
  | ok f =>
      rw [hf, except_bind_ok] at h
      exact defaultInputScan_isObj h

theorem processModule_embedded_error {pipe : Pipe} {steps : List (String × StepObj)}
    {module_id : String}
    (he : (pipe.embed.any (fun kv => kv.1 == module_id)) = true) :
    ∃ e, processModule pipe steps module_id = .error e := by
  unfold processModule
  cases hm : dictGetE pipe.modules module_id with
  | error e => exact ⟨e, rfl⟩
  | ok module =>
      cases hb : buildDefaultInput steps pipe.wires module_id with
      | error e => exact ⟨e, rfl⟩
      | ok v =>
          obtain ⟨st, hv⟩ := buildDefaultInput_isObj hb
          subst hv
          cases hf : dictGetE steps "forever" with
          | error e => rw [he]; exact ⟨e, rfl⟩
          | ok f =>
              rw [he]
              exact ⟨.assertionError, rfl⟩

theorem mainLoop_nil (pipe : Pipe) (steps : List (String × StepObj))
    (trace : List BuildCall) : mainLoop pipe [] steps trace = .ok (steps, trace, none) := rfl

theorem mainLoop_cons (pipe : Pipe) (mid : String) (rest : List String)
    (steps : List (String × StepObj)) (trace : List BuildCall) :
    mainLoop pipe (mid :: rest) steps trace =
      (match processModule pipe steps mid with
       | .error e => .error (e, trace)
       | .ok (steps', call) =>
           match mainLoop pipe rest steps' (trace ++ [call]) with
           | .ok (s, t, lastOpt) => .ok (s, t, some (lastOpt.getD mid))
           | .error e => .error e) := rfl

theorem mainLoop_embedded_error {pipe : Pipe} {eid : String}
    (he : (pipe.embed.any (fun kv => kv.1 == eid)) = true) :
    ∀ {seq : List String}, eid ∈ seq →
      ∀ steps trace, ∃ e, mainLoop pipe seq steps trace = .error e := by
  intro seq
  induction seq with
  | nil => intro h; simp at h
  | cons mid rest ih =>
      intro hmem steps trace
      rw [mainLoop_cons]
      by_cases hm : mid = eid
      · subst hm
        obtain ⟨e, hpe⟩ := @processModule_embedded_error pipe steps _ he
        rw [hpe]
        exact ⟨(e, trace), rfl⟩
      · cases hp : processModule pipe steps mid with
        | error e => exact ⟨(e, trace), rfl⟩
        | ok pr =>
            obtain ⟨steps', call⟩ := pr
            have hmem' : eid ∈ rest := by
              rcases List.mem_cons.1 hmem with h1 | h1
              · exact absurd h1.symm hm
              · exact h1
            obtain ⟨e, hml⟩ := ih hmem' steps' (trace ++ [call])
            refine ⟨e, ?_⟩
            show (match mainLoop pipe rest steps' (trace ++ [call]) with
                  | Except.ok (s, t, lastOpt) => Except.ok (s, t, some (lastOpt.getD mid))
                  | Except.error e2 => Except.error e2) = Except.error e
            rw [hml]

theorem build_pipeline_error_of_embedded {context : Context} {pipe : Pipe}
    {eid : String} (hdi : context.describe_input = false)
    (hg : eid ∈ graphNodes pipe.graph)
    (he : (pipe.embed.any (fun kv => kv.1 == eid)) = true) :
    ∃ e, build_pipeline context pipe = .error e := by
  cases ht : topological_sort pipe.graph with
  | error e =>
      refine ⟨⟨e, []⟩, ?_⟩
      unfold build_pipeline
      rw [ht]
  | ok seq =>
      have hseq : eid ∈ seq := topological_sort_mem ht eid hg
      have hb : build_pipeline context pipe =
          (match firstPass context pipe seq [] with
           | .error e => .error ⟨e, []⟩
           | .ok _ =>
               match mainLoop pipe seq [("forever", StepObj.forever)] [] with
               | .error (e, trace) =>
                   .error ⟨e, "forever" :: trace.map (fun c => c.module_id)⟩
               | .ok (steps, trace, lastOpt) =>
                   match lastOpt with
                   | none =>
                       .error ⟨.nameError "module_id",
                         "forever" :: trace.map (fun c => c.module_id)⟩
                   | some module_id =>
                       match dictGetE steps module_id with
                       | .error e =>
                           .error ⟨e, "forever" :: trace.map (fun c => c.module_id)⟩
                       | .ok ret => .ok (.pipeline steps trace ret)) := by
        unfold build_pipeline
        rw [ht, hdi]
        rfl
      rw [hb]
      cases hf : firstPass context pipe seq [] with
      | error e => exact ⟨⟨e, []⟩, rfl⟩
      | ok pyinput =>
          obtain ⟨e, hml⟩ :=
            mainLoop_embedded_error he hseq [("forever", StepObj.forever)] []
          rw [hml]
          exact ⟨⟨e.1, "forever" :: e.2.map (fun c => c.module_id)⟩, rfl⟩

theorem strProcessModule_embedded_error {pipe : Pipe} {module_id : String}
    (he : (pipe.embed.any (fun kv => kv.1 == module_id)) = true) :
    ∃ e, strProcessModule pipe module_id = .error e := by
  unfold strProcessModule
  cases hm : dictGetE pipe.modules module_id with
  | error e => exact ⟨e, rfl⟩
  | ok module =>
      rw [he]
      exact ⟨.nameError "steps", rfl⟩

theorem strStmtLoop_nil (pipe : Pipe) (stmts : List EmitStmt) (prev : Option String) :
    strStmtLoop pipe [] stmts prev = .ok (stmts, prev) := rfl

theorem strStmtLoop_cons (pipe : Pipe) (mid : String) (rest : List String)
    (stmts : List EmitStmt) (prev : Option String) :
    strStmtLoop pipe (mid :: rest) stmts prev =
      (match strProcessModule pipe mid with
       | .error e => .error e
       | .ok stmt => strStmtLoop pipe rest (stmts ++ [stmt]) (some mid)) := rfl

theorem strStmtLoop_embedded_error {pipe : Pipe} {eid : String}
    (he : (pipe.embed.any (fun kv => kv.1 == eid)) = true) :
    ∀ {seq : List String}, eid ∈ seq →
      ∀ stmts prev, ∃ e, strStmtLoop pipe seq stmts prev = .error e := by
  intro seq
  induction seq with
  | nil => intro h; simp at h
  | cons mid rest ih =>
      intro hmem stmts prev
      rw [strStmtLoop_cons]
      by_cases hm : mid = eid
      · subst hm
        obtain ⟨e, hpe⟩ := strProcessModule_embedded_error he
        rw [hpe]
        exact ⟨e, rfl⟩
      · cases hp : strProcessModule pipe mid with
        | error e => exact ⟨e, rfl⟩
        | ok stmt =>
            have hmem' : eid ∈ rest := by
              rcases List.mem_cons.1 hmem with h1 | h1
              · exact absurd h1.symm hm
              · exact h1
            obtain ⟨e, hml⟩ := ih hmem' (stmts ++ [stmt]) (some mid)
            exact ⟨e, hml⟩

theorem stringify_core_error_of_embedded {context : Context} {pipe : Pipe}
    {eid : String} (hg : eid ∈ graphNodes pipe.graph)
    (he : (pipe.embed.any (fun kv => kv.1 == eid)) = true) :
    ∃ e, stringify_core context pipe = .error e := by
  cases ht : topological_sort pipe.graph with
  | error e =>
      refine ⟨e, ?_⟩
      unfold stringify_core
      rw [ht]
      rfl
  | ok seq =>
      have hseq : eid ∈ seq := topological_sort_mem ht eid hg
      have hc : stringify_core context pipe =
          (strFirstPass pipe seq [] [] >>= fun pr =>
            match pr with
            | (imports, pyinput) =>
                strStmtLoop pipe seq [] none >>= fun sp =>
                  match sp with
                  | (stmts, prev) => pure ⟨imports, pyinput, stmts, prev⟩) := by
        unfold stringify_core
        rw [ht]
        rfl
      rw [hc]
      cases hf : strFirstPass pipe seq [] [] with
      | error e => exact ⟨e, rfl⟩
      | ok pr =>
          obtain ⟨imports, pyinput⟩ := pr
          obtain ⟨e, hml⟩ := strStmtLoop_embedded_error he hseq [] none
          rw [hml]
          exact ⟨e, rfl⟩

theorem stringify_pipe_error_of_core {context : Context} {pipe : Pipe} {e : PyErr}
    (h : stringify_core context pipe = .error e) :
    stringify_pipe context pipe = .error e := by
  unfold stringify_pipe
  rw [h]
  rfl

/-! ## Claim theorems -/

/-- C2: for every pipe document containing at least one loop module (with
collision-free canonical ids, the spec's §3 invariant) and a context not
in describe mode, `build_pipeline` raises an exception before returning a
pipeline handle — its embedded branch asserts that `input_module` equals a
two-element tuple it can never equal — and `stringify_pipe` likewise
raises (its embedded branch references the undefined name `steps`);
neither backend produces any output. -/
theorem C2_loop_pipe_both_backends_raise
    {d : PipeDef} {nm : String} {pipe : Pipe} {context : Context} {m : RawModule}
    (hp : parse_pipe_def d nm = .ok pipe)
    (hm : m ∈ d.modules) (hml : m.type_ = "loop")
    (hnd : (docIds d.modules).Nodup)
    (hdi : context.describe_input = false) :
    (∃ e, build_pipeline context pipe = .error e) ∧
    (∃ e, stringify_pipe context pipe = .error e) := by
  obtain ⟨st, g0, h1, h2, hpipe⟩ := parse_pipe_def_ok hp
  obtain ⟨em, l, he, hg, hne, hemb⟩ := parseModules_loop h1 hm hml hnd
  obtain ⟨l', hg0, hne'⟩ := parseWires_nonempty h2 hg hne
  have hkeep : dictGet (pruneOrphans g0) (pythonise em.id) = some l' :=
    pruneOrphans_keeps hg0 hne'
  subst hpipe
  have hgn : pythonise em.id ∈ graphNodes (pruneOrphans g0) :=
    mem_graphNodes_of_key (by rw [hkeep]; rfl)
  have hany : (st.embed.any (fun kv => kv.1 == pythonise em.id)) = true :=
    any_key_of_isSome hemb
  constructor
  · exact build_pipeline_error_of_embedded hdi hgn hany
  · obtain ⟨e, hc⟩ := @stringify_core_error_of_embedded context
      ⟨pythonise nm, st.modules, st.embed, pruneOrphans g0,
        d.wires.foldl (fun dd w => dictSet dd (pythonise w.id) w) []⟩
      (pythonise em.id) hgn hany
    exact ⟨e, stringify_pipe_error_of_core hc⟩

/-- Witness for C2: the concrete one-loop document. -/
theorem C2_loop_pipe_both_backends_raise_witness :
    (∃ e, build_pipeline ctxRun (pipeOfDoc docLoop "lp") = .error e) ∧
    (∃ e, stringify_pipe ctxRun (pipeOfDoc docLoop "lp") = .error e) :=
  @C2_loop_pipe_both_backends_raise docLoop "lp" (pipeOfDoc docLoop "lp") ctxRun
    ⟨"loop1", "loop", Conf.entries [("embed", CEntry.embedded "embedmod1" "fetch" Conf.null)]⟩
    rfl (List.mem_singleton.2 rfl) rfl (by decide) rfl

/-- C1 (code bug, evaluation at the failing input): on a pipe with one
loop module, the embedded module is scheduled, but instead of skipping the
default-input lookup and binding the `_INPUT` placeholder,
`build_pipeline` raises `AssertionError` (its assert compares the resolved
step against a two-element tuple) with only the synthetic root
instantiated, and `stringify_pipe` raises `NameError` on the undefined
name `steps`. -/
theorem C1_embedded_placeholder_code_bug :
    parse_pipe_def docLoop "lp" = .ok (pipeOfDoc docLoop "lp") ∧
    build_pipeline ctxRun (pipeOfDoc docLoop "lp") =
      .error ⟨.assertionError, ["forever"]⟩ ∧
    stringify_pipe ctxRun (pipeOfDoc docLoop "lp") = .error (.nameError "steps") :=
  ⟨rfl, rfl, rfl⟩

/-- C3 (code bug, evaluation at the failing input): on a pipe with a split
module and one outgoing-from-upstream wire, both backends raise
`TypeError` while computing the fan-out count — the source filters the
wires dict, iterating wire-id strings and subscripting them with `'src'` —
instead of binding `splits` to the number of default-output wires leaving
the split module. -/
theorem C3_split_fanout_code_bug :
    parse_pipe_def docSplit "sp" = .ok (pipeOfDoc docSplit "sp") ∧
    build_pipeline ctxRun (pipeOfDoc docSplit "sp") =
      .error ⟨.typeError "string indices must be integers", ["forever", "fetch1"]⟩ ∧
    stringify_pipe ctxRun (pipeOfDoc docSplit "sp") =
      .error (.typeError "string indices must be integers") :=
  ⟨rfl, rfl, rfl⟩

/-! ## Default-input and auxiliary-input resolution -/

theorem lastMatch_nil (p : (String × Wire) → Bool) : lastMatch p [] = none := rfl

theorem lastMatch_foldl (p : (String × Wire) → Bool) :
    ∀ (wires : List (String × Wire)) (acc : Option (String × Wire)),
      wires.foldl (fun a kv => if p kv then some kv else a) acc =
        (match lastMatch p wires with
         | some w => some w
         | none => acc) := by
  intro wires
  induction wires with
  | nil => intro acc; rfl
  | cons kv rest ih =>
      intro acc
      unfold lastMatch
      rw [List.foldl_cons, List.foldl_cons, ih, ih]
      by_cases hp : p kv = true
      · simp only [hp, if_true]
        cases lastMatch p rest <;> rfl
      · simp only [hp, if_false]
        cases lastMatch p rest <;> rfl

theorem lastMatch_cons (p : (String × Wire) → Bool) (kv : String × Wire)
    (rest : List (String × Wire)) :
    lastMatch p (kv :: rest) =
      (match lastMatch p rest with
       | some w => some w
       | none => if p kv then some kv else none) := by
  have h1 : lastMatch p (kv :: rest) =
      rest.foldl (fun a kv2 => if p kv2 then some kv2 else a)
        (if p kv then some kv else none) := rfl
  rw [h1, lastMatch_foldl]

theorem defaultInputScan_char (steps : List (String × StepObj)) (module_id : String) :
    ∀ (wires : List (String × Wire)) (acc : PyVal),
      (∀ kv ∈ wires, isInputWire module_id kv = true →
        ∃ s, dictGetE steps (pythonise kv.2.src.moduleid) = .ok s) →
      defaultInputScan steps module_id wires acc =
        (match lastMatch (isInputWire module_id) wires with
         | none => .ok acc
         | some w => (dictGetE steps (pythonise w.2.src.moduleid)).map PyVal.obj) := by
  intro wires
  induction wires with
  | nil => intro acc _; rfl
  | cons kv rest ih =>
      intro acc hok
      rw [defaultInputScan_cons, lastMatch_cons]
      have hok' : ∀ kv2 ∈ rest, isInputWire module_id kv2 = true →
          ∃ s, dictGetE steps (pythonise kv2.2.src.moduleid) = .ok s :=
        fun kv2 h2 => hok kv2 (List.mem_cons_of_mem _ h2)
      by_cases hp : isInputWire module_id kv = true
      · have hcond : (pythonise kv.2.tgt.moduleid == module_id &&
            kv.2.tgt.id == "_INPUT" && startswith kv.2.src.id "_OUTPUT") = true := hp
        rw [if_pos hcond]
        obtain ⟨s, hs⟩ := hok kv (List.mem_cons_self _ _) hp
        have hred : (match dictGetE steps (pythonise kv.2.src.moduleid) with
            | Except.ok v => defaultInputScan steps module_id rest (PyVal.obj v)
            | Except.error e => Except.error e) =
              defaultInputScan steps module_id rest (PyVal.obj s) := by rw [hs]
        rw [hred, ih _ hok']
        cases hl : lastMatch (isInputWire module_id) rest with
        | some w => rfl
        | none =>
            simp only [hp, if_true]
            rw [hs]
            rfl
      · have hcond : (pythonise kv.2.tgt.moduleid == module_id &&
            kv.2.tgt.id == "_INPUT" && startswith kv.2.src.id "_OUTPUT") = false := by
          rw [Bool.eq_false_iff]
          intro hc
          exact hp hc
        rw [if_neg (by rw [hcond]; exact Bool.false_ne_true)]
        rw [ih _ hok']
        cases hl : lastMatch (isInputWire module_id) rest with
        | some w => rfl
        | none => rw [if_neg hp]

theorem strDefaultInputScan_char (module_id : String) :
    ∀ (wires : List (String × Wire)) (acc : String),
      strDefaultInputScan module_id wires acc =
        (match lastMatch (isInputWire module_id) wires with
         | none => acc
         | some w => pythonise w.2.src.moduleid) := by
  intro wires
  induction wires with
  | nil => intro acc; rfl
  | cons kv rest ih =>
      intro acc
      unfold strDefaultInputScan
      rw [lastMatch_cons]
      by_cases hp : isInputWire module_id kv = true
      · have hcond : (pythonise kv.2.tgt.moduleid == module_id &&
            kv.2.tgt.id == "_INPUT" && startswith kv.2.src.id "_OUTPUT") = true := hp
        rw [if_pos hcond, ih]
        cases hl : lastMatch (isInputWire module_id) rest with
        | some w => rfl
        | none => simp only [hp, if_true]
      · have hcond : (pythonise kv.2.tgt.moduleid == module_id &&
            kv.2.tgt.id == "_INPUT" && startswith kv.2.src.id "_OUTPUT") = false := by
          rw [Bool.eq_false_iff]
          intro hc
          exact hp hc
        rw [if_neg (by rw [hcond]; exact Bool.false_ne_true), ih]
        cases hl : lastMatch (isInputWire module_id) rest with
        | some w => rfl
        | none => rw [if_neg hp]

theorem exists_ok_of_toOption_isSome {ε α : Type} {r : Except ε α}
    (h : r.toOption.isSome = true) : ∃ a, r = .ok a := by
  cases r with
  | ok a => exact ⟨a, rfl⟩
  | error e => simp [Except.toOption] at h

theorem lastMatch_none_of_all (p : (String × Wire) → Bool) :
    ∀ (wires : List (String × Wire)), (∀ kv ∈ wires, p kv = false) →
      lastMatch p wires = none := by
  intro wires
  induction wires with
  | nil => intro _; rfl
  | cons kv rest ih =>
      intro h
      rw [lastMatch_cons, ih (fun kv2 h2 => h kv2 (List.mem_cons_of_mem _ h2))]
      rw [if_neg (by rw [h kv (List.mem_cons_self _ _)]; exact Bool.false_ne_true)]

theorem extraKargsScan_nil (steps : List (String × StepObj)) (mid : String)
    (kargs : List (String × PyVal)) : extraKargsScan steps mid [] kargs = .ok kargs := rfl

theorem extraKargsScan_cons (steps : List (String × StepObj)) (mid : String)
    (kv : String × Wire) (rest : List (String × Wire)) (kargs : List (String × PyVal)) :
    extraKargsScan steps mid (kv :: rest) kargs =
      (if pythonise kv.2.tgt.moduleid == mid && kv.2.tgt.id != "_INPUT" &&
          startswith kv.2.src.id "_OUTPUT" then
        match dictGetE steps (pythonise kv.2.src.moduleid) with
        | .ok v => extraKargsScan steps mid rest
            (dictSet kargs (pythonise kv.2.tgt.id) (PyVal.obj v))
        | .error e => .error e
      else extraKargsScan steps mid rest kargs) := rfl

theorem extraKargsScan_port (steps : List (String × StepObj)) (module_id p : String) :
    ∀ (wires : List (String × Wire)) (kargs : List (String × PyVal)),
      (∀ kv ∈ wires, isAuxWire module_id kv = true →
        ∃ s, dictGetE steps (pythonise kv.2.src.moduleid) = .ok s) →
      ∃ kargs', extraKargsScan steps module_id wires kargs = .ok kargs' ∧
        dictGet kargs' p =
          (match lastMatch (fun kv => isAuxWire module_id kv &&
              (pythonise kv.2.tgt.id == p)) wires with
           | none => dictGet kargs p
           | some w => (dictGetE steps (pythonise w.2.src.moduleid)).toOption.map PyVal.obj) := by
  intro wires
  induction wires with
  | nil => intro kargs _; exact ⟨kargs, rfl, rfl⟩
  | cons kv rest ih =>
      intro kargs hok
      have hok' : ∀ kv2 ∈ rest, isAuxWire module_id kv2 = true →
          ∃ s, dictGetE steps (pythonise kv2.2.src.moduleid) = .ok s :=
        fun kv2 h2 => hok kv2 (List.mem_cons_of_mem _ h2)
      rw [extraKargsScan_cons, lastMatch_cons]
      by_cases haux : isAuxWire module_id kv = true
      · have hcond : (pythonise kv.2.tgt.moduleid == module_id &&
            kv.2.tgt.id != "_INPUT" && startswith kv.2.src.id "_OUTPUT") = true := haux
        rw [if_pos hcond]
        obtain ⟨s, hs⟩ := hok kv (List.mem_cons_self _ _) haux
        have hred : (match dictGetE steps (pythonise kv.2.src.moduleid) with
            | Except.ok v => extraKargsScan steps module_id rest
                (dictSet kargs (pythonise kv.2.tgt.id) (PyVal.obj v))
            | Except.error e => Except.error e) =
              extraKargsScan steps module_id rest
                (dictSet kargs (pythonise kv.2.tgt.id) (PyVal.obj s)) := by rw [hs]
        rw [hred]
        obtain ⟨kargs', h1, h2⟩ := ih (dictSet kargs (pythonise kv.2.tgt.id) (PyVal.obj s)) hok'
        refine ⟨kargs', h1, ?_⟩
        rw [h2]
        cases hl : lastMatch (fun kv => isAuxWire module_id kv &&
            (pythonise kv.2.tgt.id == p)) rest with
        | some w => rfl
        | none =>
            simp only [haux, Bool.true_and]
            by_cases hpp : (pythonise kv.2.tgt.id == p) = true
            · rw [if_pos hpp]
              have heq : pythonise kv.2.tgt.id = p := by simpa using hpp
              rw [heq, dictGet_dictSet_self]
              show some (PyVal.obj s) =
                (dictGetE steps (pythonise kv.2.src.moduleid)).toOption.map PyVal.obj
              rw [hs]
              rfl
            · rw [if_neg hpp]
              have hne : ¬ p = pythonise kv.2.tgt.id := by
                intro hc
                apply hpp
                simp [hc]
              rw [dictGet_dictSet_ne _ _ _ _ hne]
      · have hcond : (pythonise kv.2.tgt.moduleid == module_id &&
            kv.2.tgt.id != "_INPUT" && startswith kv.2.src.id "_OUTPUT") = false := by
          rw [Bool.eq_false_iff]
          intro hc
          exact haux hc
        rw [if_neg (by rw [hcond]; exact Bool.false_ne_true)]
        obtain ⟨kargs', h1, h2⟩ := ih kargs hok'
        refine ⟨kargs', h1, ?_⟩
        rw [h2]
        cases hl : lastMatch (fun kv => isAuxWire module_id kv &&
            (pythonise kv.2.tgt.id == p)) rest with
        | some w => rfl
        | none =>
            have hfalse : (isAuxWire module_id kv && (pythonise kv.2.tgt.id == p)) = false := by
              rw [Bool.eq_false_iff]
              intro hc
              rw [Bool.and_eq_true] at hc
              exact haux hc.1
            rw [if_neg (by rw [hfalse]; exact Bool.false_ne_true)]

theorem strKwargsScan_cons (module_id : String) (kv : String × Wire)
    (rest : List (String × Wire)) (acc : List (String × StrArg)) :
    strKwargsScan module_id (kv :: rest) acc =
      (if pythonise kv.2.tgt.moduleid == module_id && kv.2.tgt.id != "_INPUT" &&
          startswith kv.2.src.id "_OUTPUT" then
        strKwargsScan module_id rest
          (acc ++ [(pythonise kv.2.tgt.id, StrArg.idArg (pythonise kv.2.src.moduleid))])
      else strKwargsScan module_id rest acc) := rfl

theorem strKwargsScan_char (module_id : String) :
    ∀ (wires : List (String × Wire)) (acc : List (String × StrArg)),
      strKwargsScan module_id wires acc =
        acc ++ (wires.filter (fun kv => isAuxWire module_id kv)).map
          (fun kv => (pythonise kv.2.tgt.id, StrArg.idArg (pythonise kv.2.src.moduleid))) := by
  intro wires
  induction wires with
  | nil => intro acc; simp [strKwargsScan]
  | cons kv rest ih =>
      intro acc
      by_cases haux : isAuxWire module_id kv = true
      · have hcond : (pythonise kv.2.tgt.moduleid == module_id &&
            kv.2.tgt.id != "_INPUT" && startswith kv.2.src.id "_OUTPUT") = true := haux
        have hstep : strKwargsScan module_id (kv :: rest) acc =
            strKwargsScan module_id rest
              (acc ++ [(pythonise kv.2.tgt.id,
                StrArg.idArg (pythonise kv.2.src.moduleid))]) := by
          rw [strKwargsScan_cons, if_pos hcond]
        rw [hstep, ih, List.filter_cons_of_pos (by exact haux), List.map_cons,
          List.append_assoc]
        rfl
      · have hcond : (pythonise kv.2.tgt.moduleid == module_id &&
            kv.2.tgt.id != "_INPUT" && startswith kv.2.src.id "_OUTPUT") = false := by
          rw [Bool.eq_false_iff]
          intro hc
          exact haux hc
        have hstep : strKwargsScan module_id (kv :: rest) acc =
            strKwargsScan module_id rest acc := by
          rw [strKwargsScan_cons, if_neg (by rw [hcond]; exact Bool.false_ne_true)]
        rw [hstep, ih, List.filter_cons_of_neg haux]

/-- C4: for every module with no wire targeting its default input from a
default-output port, the resolution performed by `build_pipeline` binds
the synthetic root step `steps["forever"]` (the `pipeforever` step) and
the resolution performed by `stringify_pipe` binds the identifier
`forever`. -/
theorem C4_unwired_default_input_is_synthetic_root
    (steps : List (String × StepObj)) (wires : List (String × Wire))
    (module_id : String)
    (hnone : ∀ kv ∈ wires, isInputWire module_id kv = false) :
    buildDefaultInput steps wires module_id =
      (dictGetE steps "forever").map PyVal.obj ∧
    strDefaultInput wires module_id = "forever" := by
  have hlm := lastMatch_none_of_all (isInputWire module_id) wires hnone
  have hok : ∀ kv ∈ wires, isInputWire module_id kv = true →
      ∃ s, dictGetE steps (pythonise kv.2.src.moduleid) = .ok s := by
    intro kv hkv ht
    rw [hnone kv hkv] at ht
    exact absurd ht (by simp)
  constructor
  · unfold buildDefaultInput
    cases hf : dictGetE steps "forever" with
    | error e => rfl
    | ok f =>
        have h1 := defaultInputScan_char steps module_id wires (PyVal.obj f) hok
        rw [hlm] at h1
        exact h1
  · unfold strDefaultInput
    rw [strDefaultInputScan_char, hlm]

/-- Witness for C4: module `a3` of the two-module example pipe has no
incoming default-input wire. -/
theorem C4_unwired_default_input_is_synthetic_root_witness :
    buildDefaultInput [("forever", StepObj.forever)] (pipeOfDoc docAB "ab").wires "a3" =
      (dictGetE [("forever", StepObj.forever)] "forever").map PyVal.obj ∧
    strDefaultInput (pipeOfDoc docAB "ab").wires "a3" = "forever" :=
  C4_unwired_default_input_is_synthetic_root _ _ _ (by decide)

/-- C5 (amended): when several wires with default-output source ports
target the same input port, resolution does not fail and the wire
encountered last in wires-dict iteration order wins for the default input
in both backends, and for auxiliary ports in `build_pipeline`;
`stringify_pipe`, however, appends one keyword argument per matching
auxiliary wire in iteration order (emitting duplicated port names) instead
of selecting a single last binding. -/
theorem C5_last_wire_wins_amended
    (steps : List (String × StepObj)) (wires : List (String × Wire))
    (module_id p : String) (w wp : String × Wire)
    (kargs0 : List (String × PyVal)) (acc0 : List (String × StrArg))
    (hfv : (dictGetE steps "forever").toOption.isSome = true)
    (hok : ∀ kv ∈ wires, (isInputWire module_id kv || isAuxWire module_id kv) = true →
      (dictGetE steps (pythonise kv.2.src.moduleid)).toOption.isSome = true)
    (hw : lastMatch (isInputWire module_id) wires = some w)
    (hwp : lastMatch (fun kv => isAuxWire module_id kv &&
        (pythonise kv.2.tgt.id == p)) wires = some wp) :
    buildDefaultInput steps wires module_id =
      (dictGetE steps (pythonise w.2.src.moduleid)).map PyVal.obj ∧
    strDefaultInput wires module_id = pythonise w.2.src.moduleid ∧
    (∃ kargs', extraKargsScan steps module_id wires kargs0 = .ok kargs' ∧
      dictGet kargs' p =
        (dictGetE steps (pythonise wp.2.src.moduleid)).toOption.map PyVal.obj) ∧
    strKwargsScan module_id wires acc0 =
      acc0 ++ (wires.filter (fun kv => isAuxWire module_id kv)).map
        (fun kv => (pythonise kv.2.tgt.id, StrArg.idArg (pythonise kv.2.src.moduleid))) := by
  obtain ⟨f, hf⟩ := exists_ok_of_toOption_isSome hfv
  have hokI : ∀ kv ∈ wires, isInputWire module_id kv = true →
      ∃ s, dictGetE steps (pythonise kv.2.src.moduleid) = .ok s := by
    intro kv hkv ht
    exact exists_ok_of_toOption_isSome (hok kv hkv (by rw [ht]; rfl))
  have hokA : ∀ kv ∈ wires, isAuxWire module_id kv = true →
      ∃ s, dictGetE steps (pythonise kv.2.src.moduleid) = .ok s := by
    intro kv hkv ht
    exact exists_ok_of_toOption_isSome (hok kv hkv (by rw [ht]; simp))
  refine ⟨?_, ?_, ?_, ?_⟩
  · unfold buildDefaultInput
    rw [hf, except_bind_ok, defaultInputScan_char steps module_id wires _ hokI, hw]
  · unfold strDefaultInput
    rw [strDefaultInputScan_char, hw]
  · obtain ⟨kargs', h1, h2⟩ := extraKargsScan_port steps module_id p wires kargs0 hokA
    refine ⟨kargs', h1, ?_⟩
    rw [h2, hwp]
  · exact strKwargsScan_char module_id wires acc0

/-- Witness for C5 (amended): the three-wire pipe in which `w0` wires the
default input of `m1` and `w1`, `w2` both wire its `RULE` port. -/
theorem C5_last_wire_wins_amended_witness :
    buildDefaultInput
        [("forever", StepObj.forever), ("a1", StepObj.step "a1"), ("b1", StepObj.step "b1")]
        (pipeOfDoc docDup "dup").wires "m1" =
      (dictGetE [("forever", StepObj.forever), ("a1", StepObj.step "a1"),
          ("b1", StepObj.step "b1")]
        (pythonise ("w0", Wire.mk "w0" ⟨"a1", "_OUTPUT"⟩ ⟨"m1", "_INPUT"⟩).2.src.moduleid)).map
        PyVal.obj ∧
    strDefaultInput (pipeOfDoc docDup "dup").wires "m1" =
      pythonise ("w0", Wire.mk "w0" ⟨"a1", "_OUTPUT"⟩ ⟨"m1", "_INPUT"⟩).2.src.moduleid ∧
    (∃ kargs', extraKargsScan
        [("forever", StepObj.forever), ("a1", StepObj.step "a1"), ("b1", StepObj.step "b1")]
        "m1" (pipeOfDoc docDup "dup").wires [("conf", PyVal.confv Conf.null)] = .ok kargs' ∧
      dictGet kargs' "RULE" =
        (dictGetE [("forever", StepObj.forever), ("a1", StepObj.step "a1"),
            ("b1", StepObj.step "b1")]
          (pythonise
            ("w2", Wire.mk "w2" ⟨"b1", "_OUTPUT"⟩ ⟨"m1", "RULE"⟩).2.src.moduleid)).toOption.map
          PyVal.obj) ∧
    strKwargsScan "m1" (pipeOfDoc docDup "dup").wires [("conf", StrArg.confArg Conf.null)] =
      [("conf", StrArg.confArg Conf.null)] ++
        ((pipeOfDoc docDup "dup").wires.filter (fun kv => isAuxWire "m1" kv)).map
          (fun kv => (pythonise kv.2.tgt.id, StrArg.idArg (pythonise kv.2.src.moduleid))) :=
  C5_last_wire_wins_amended _ _ _ _ _ _ _ _
    (by decide) (by decide) (by decide) (by decide)

/-- Counterexample to C5 as stated: in `stringify_pipe`, two wires
targeting the auxiliary port `RULE` of `m1` do not resolve to a single
last-wins binding — both keyword arguments are emitted, so the kwargs
entries for `RULE` are not the single binding of the last wire. -/
theorem C5_last_wire_wins_counterexample :
    ¬ ((strKwargsScan "m1" (pipeOfDoc docDup "dup").wires
          [("conf", StrArg.confArg Conf.null)]).filter (fun kv => kv.1 == "RULE") =
        [("RULE", StrArg.idArg "b1")]) :=
  fun h => absurd (congrArg List.length h) (by decide)

/-- C6: for every parsed document, a module whose pre-pruning graph node
has an empty successor list and that appears in no node's successor list
is removed from the returned graph — hence absent from any schedule the
topological sort produces — while the modules table is untouched by
pruning and still registers the module under its canonical id. -/
theorem C6_orphan_pruning
    {d : PipeDef} {nm : String} {p : Pipe} {st : ParseSt}
    {g0 : List (String × List String)} {n : String}
    (hp : parse_pipe_def d nm = .ok p)
    (hm : parseModules d.modules ⟨[], [], []⟩ = .ok st)
    (hw : parseWires st.graph d.wires = .ok g0)
    (hsucc : dictGet g0 n = some [])
    (htgt : ∀ kv ∈ g0, n ∉ kv.2) :
    dictGet p.graph n = none ∧
    (dictGet p.modules n).isSome = true ∧
    dictGet p.modules n = dictGet st.modules n ∧
    (∀ seq, topological_sort p.graph = .ok seq → n ∉ seq) := by
  obtain ⟨st2, g02, h1, h2, hpipe⟩ := parse_pipe_def_ok hp
  rw [hm, Except.ok.injEq] at h1
  subst h1
  rw [hw, Except.ok.injEq] at h2
  subst h2
  subst hpipe
  have hgone : dictGet (pruneOrphans g0) n = none := pruneOrphans_removes hsucc htgt
  have hmods : (dictGet st.modules n).isSome = true := by
    apply parseModules_inv hm
    · intro k hk
      simp [dictGet] at hk
    · rw [← parseWires_isSome hw n]
      rw [hsucc]
      rfl
  refine ⟨hgone, hmods, rfl, ?_⟩
  intro seq hs hmem
  apply not_mem_graphNodes hgone
    (fun kv hkv => htgt kv (mem_of_mem_pruneFold hkv))
  exact topological_sort_subset hs n hmem

/-- Witness for C6: module `orph` of the concrete three-module document is
pruned from the graph and the schedule but stays in the modules table. -/
theorem C6_orphan_pruning_witness :
    dictGet (pipeOfDoc docOrphan "orp").graph "orph" = none ∧
    (dictGet (pipeOfDoc docOrphan "orp").modules "orph").isSome = true ∧
    dictGet (pipeOfDoc docOrphan "orp").modules "orph" =
      dictGet (parseStOfDoc docOrphan).modules "orph" ∧
    "orph" ∉ ["a2", "b2"] :=
  have h := @C6_orphan_pruning docOrphan "orp" (pipeOfDoc docOrphan "orp")
    (parseStOfDoc docOrphan) (preGraphOfDoc docOrphan) "orph"
    rfl rfl rfl (by decide) (by decide)
  ⟨h.1, h.2.1, h.2.2.1, h.2.2.2 ["a2", "b2"] rfl⟩

/-! ## Declared-input collection and its order -/

theorem bor_eq_true {a b : Bool} : (a || b) = true ↔ a = true ∨ b = true := by
  cases a <;> cases b <;> simp

theorem jvalLt_trans : ∀ {a b c : JVal}, jvalLt a b = true → jvalLt b c = true →
    jvalLt a c = true := by
  intro a b c h1 h2
  cases a <;> cases b <;> cases c <;>
    simp only [jvalLt, decide_eq_true_eq] at h1 h2 ⊢ <;>
    first
      | rfl
      | exact lt_trans h1 h2
      | exact Bool.noConfusion h1
      | exact Bool.noConfusion h2
      | trivial

theorem jvalLt_trichotomy : ∀ a b : JVal,
    jvalLt a b = true ∨ a = b ∨ jvalLt b a = true := by
  intro a b
  cases a <;> cases b <;>
    simp only [jvalLt, decide_eq_true_eq, JVal.n.injEq, JVal.s.injEq] <;>
    first
      | exact Or.inl rfl
      | exact Or.inl trivial
      | exact Or.inr (Or.inl rfl)
      | exact Or.inr (Or.inl trivial)
      | exact Or.inr (Or.inr rfl)
      | exact Or.inr (Or.inr trivial)
      | exact lt_trichotomy _ _

theorem jvalLe_trans : ∀ {a b c : JVal}, jvalLe a b = true → jvalLe b c = true →
    jvalLe a c = true := by
  intro a b c h1 h2
  unfold jvalLe at h1 h2 ⊢
  rcases bor_eq_true.1 h1 with ha | ha <;> rcases bor_eq_true.1 h2 with hb | hb
  · exact bor_eq_true.2 (Or.inl (jvalLt_trans ha hb))
  · have : b = c := by simpa using hb
    subst this
    exact bor_eq_true.2 (Or.inl ha)
  · have : a = b := by simpa using ha
    subst this
    exact bor_eq_true.2 (Or.inl hb)
  · have : a = b := by simpa using ha
    subst this
    exact bor_eq_true.2 (Or.inr hb)

theorem jvalLe_total : ∀ a b : JVal, (jvalLe a b || jvalLe b a) = true := by
  intro a b
  unfold jvalLe
  rcases jvalLt_trichotomy a b with h | h | h
  · simp [h]
  · simp [h]
  · simp [h]

theorem lex_trans_step {x y z : JVal} {p q r : Bool}
    (hpqr : p = true → q = true → r = true)
    (h1 : (jvalLt x y || (x == y && p)) = true)
    (h2 : (jvalLt y z || (y == z && q)) = true) :
    (jvalLt x z || (x == z && r)) = true := by
  rcases bor_eq_true.1 h1 with ha | ha <;> rcases bor_eq_true.1 h2 with hb | hb
  · exact bor_eq_true.2 (Or.inl (jvalLt_trans ha hb))
  · rw [Bool.and_eq_true] at hb
    have : y = z := by simpa using hb.1
    subst this
    exact bor_eq_true.2 (Or.inl ha)
  · rw [Bool.and_eq_true] at ha
    have : x = y := by simpa using ha.1
    subst this
    exact bor_eq_true.2 (Or.inl hb)
  · rw [Bool.and_eq_true] at ha hb
    have hxy : x = y := by simpa using ha.1
    subst hxy
    have hyz : x = z := by simpa using hb.1
    subst hyz
    apply bor_eq_true.2
    apply Or.inr
    rw [Bool.and_eq_true]
    exact ⟨by simp, hpqr ha.2 hb.2⟩

theorem lex_total_step {x y : JVal} {p q : Bool} (hpq : (p || q) = true) :
    ((jvalLt x y || (x == y && p)) || (jvalLt y x || (y == x && q))) = true := by
  rcases jvalLt_trichotomy x y with h | h | h
  · simp [h]
  · subst h
    rcases bor_eq_true.1 hpq with hp | hp <;> simp [hp]
  · simp [h]

theorem tupleLe_trans : ∀ (a b c : InputTuple), tupleLe a b = true →
    tupleLe b c = true → tupleLe a c = true := by
  intro a b c h1 h2
  unfold tupleLe at h1 h2 ⊢
  refine lex_trans_step ?_ h1 h2
  intro p1 p2
  refine lex_trans_step ?_ p1 p2
  intro q1 q2
  refine lex_trans_step ?_ q1 q2
  intro r1 r2
  refine lex_trans_step ?_ r1 r2
  intro s1 s2
  exact jvalLe_trans s1 s2

theorem tupleLe_total : ∀ a b : InputTuple, (tupleLe a b || tupleLe b a) = true := by
  intro a b
  unfold tupleLe
  exact lex_total_step (lex_total_step (lex_total_step (lex_total_step
    (jvalLe_total _ _))))

theorem posLe_of_tupleLe {a b : InputTuple} (h : tupleLe a b = true) :
    posLe a b = true := by
  unfold tupleLe at h
  unfold posLe jvalLe
  rcases bor_eq_true.1 h with h1 | h1
  · simp [h1]
  · rw [Bool.and_eq_true] at h1
    simp [h1.1]

/-! ## Describe mode (C7) -/

theorem firstPass_nil (context : Context) (pipe : Pipe) (pyinput : List InputTuple) :
    firstPass context pipe [] pyinput = .ok pyinput := rfl

theorem firstPass_cons (context : Context) (pipe : Pipe) (module_id : String)
    (rest : List String) (pyinput : List InputTuple) :
    firstPass context pipe (module_id :: rest) pyinput =
      (dictGetE pipe.modules module_id >>= fun module =>
        if module.conf.truthy && module.conf.hasKey "prompt" &&
            context.describe_input then
          module.conf.litValue "position" >>= fun position =>
          module.conf.litValue "name" >>= fun name =>
          module.conf.litValue "prompt" >>= fun prompt =>
          module.conf.litType "default" >>= fun dtype =>
          module.conf.litValue "default" >>= fun dvalue =>
          firstPass context pipe rest
            (pyinput ++ [(position, name, prompt, dtype, dvalue)])
        else firstPass context pipe rest pyinput) := rfl

theorem collectPrompts_nil (pipe : Pipe) : collectPrompts pipe [] = .ok [] := rfl

theorem collectPrompts_cons (pipe : Pipe) (module_id : String) (rest : List String) :
    collectPrompts pipe (module_id :: rest) =
      (dictGetE pipe.modules module_id >>= fun module =>
        if module.conf.truthy && module.conf.hasKey "prompt" then
          module.conf.litValue "position" >>= fun position =>
          module.conf.litValue "name" >>= fun name =>
          module.conf.litValue "prompt" >>= fun prompt =>
          module.conf.litType "default" >>= fun dtype =>
          module.conf.litValue "default" >>= fun dvalue =>
          collectPrompts pipe rest >>= fun tail =>
          pure ((position, name, prompt, dtype, dvalue) :: tail)
        else collectPrompts pipe rest) := rfl

theorem firstPass_describe {context : Context} (pipe : Pipe)
    (hd : context.describe_input = true) :
    ∀ (seq : List String) (acc : List InputTuple),
      firstPass context pipe seq acc =
        (collectPrompts pipe seq).map (fun l => acc ++ l) := by
  intro seq
  induction seq with
  | nil =>
      intro acc
      rw [firstPass_nil, collectPrompts_nil]
      simp [Except.map]
  | cons m rest ih =>
      intro acc
      rw [firstPass_cons, collectPrompts_cons]
      cases hm : dictGetE pipe.modules m with
      | error e => rw [except_bind_error, except_bind_error]; rfl
      | ok module =>
          rw [except_bind_ok, except_bind_ok, hd, Bool.and_true]
          by_cases hc : (module.conf.truthy && module.conf.hasKey "prompt") = true
          · rw [if_pos hc, if_pos hc]
            cases h1 : module.conf.litValue "position" with
            | error e => rw [except_bind_error, except_bind_error]; rfl
            | ok position =>
            rw [except_bind_ok, except_bind_ok]
            cases h2 : module.conf.litValue "name" with
            | error e => rw [except_bind_error, except_bind_error]; rfl
            | ok name =>
            rw [except_bind_ok, except_bind_ok]
            cases h3 : module.conf.litValue "prompt" with
            | error e => rw [except_bind_error, except_bind_error]; rfl
            | ok prompt =>
            rw [except_bind_ok, except_bind_ok]
            cases h4 : module.conf.litType "default" with
            | error e => rw [except_bind_error, except_bind_error]; rfl
            | ok dtype =>
            rw [except_bind_ok, except_bind_ok]
            cases h5 : module.conf.litValue "default" with
            | error e => rw [except_bind_error, except_bind_error]; rfl
            | ok dvalue =>
            rw [except_bind_ok, except_bind_ok]
            rw [ih (acc ++ [(position, name, prompt, dtype, dvalue)])]
            cases ht : collectPrompts pipe rest with
            | error e => rfl
            | ok tail =>
                rw [except_bind_ok]
                simp [Except.map, pure, Except.pure]
          · rw [if_neg hc, if_neg hc]
            exact ih acc

/-- C7: with `describe_input` set, `build_pipeline` returns the list of
declared-input tuples (position, name, prompt, default type, default
value) — one per scheduled module whose configuration contains a prompt
entry — sorted ascending by position (the sort key is the whole tuple,
whose first component is the position), and returns it without
instantiating any step: the result is the `inputs` form, never a
`pipeline` of steps, and no factory invocation is traced. -/
theorem C7_describe_mode_inputs
    {context : Context} {pipe : Pipe} {seq : List String}
    {tuples : List InputTuple}
    (hd : context.describe_input = true)
    (hs : topological_sort pipe.graph = .ok seq)
    (hc : collectPrompts pipe seq = .ok tuples) :
    build_pipeline context pipe = .ok (.inputs (tuples.mergeSort tupleLe)) ∧
    (tuples.mergeSort tupleLe).Perm tuples ∧
    (tuples.mergeSort tupleLe).Pairwise (fun a b => posLe a b = true) ∧
    (∀ steps trace ret,
      build_pipeline context pipe ≠ .ok (.pipeline steps trace ret)) := by
  have hfp : firstPass context pipe seq [] = .ok tuples := by
    rw [firstPass_describe pipe hd seq [], hc]
    rfl
  have h1 : build_pipeline context pipe = .ok (.inputs (tuples.mergeSort tupleLe)) := by
    have hb : build_pipeline context pipe =
        (match firstPass context pipe seq [] with
         | Except.error e => Except.error ⟨e, []⟩
         | Except.ok pyinput =>
           if context.describe_input = true then
             Except.ok (BuildResult.inputs (pyinput.mergeSort tupleLe))
           else
             match mainLoop pipe seq [("forever", StepObj.forever)] [] with
             | Except.error (e, trace) =>
                 Except.error ⟨e, "forever" :: trace.map (fun c => c.module_id)⟩
             | Except.ok (steps, trace, lastOpt) =>
               match lastOpt with
               | none => Except.error ⟨PyErr.nameError "module_id",
                   "forever" :: trace.map (fun c => c.module_id)⟩
               | some module_id =>
                 match dictGetE steps module_id with
                 | Except.error e => Except.error ⟨e,
                     "forever" :: trace.map (fun c => c.module_id)⟩
                 | Except.ok ret => Except.ok (BuildResult.pipeline steps trace ret)) := by
      unfold build_pipeline
      rw [hs]
    rw [hfp, hd] at hb
    exact hb
  refine ⟨h1, List.mergeSort_perm tuples tupleLe, ?_, ?_⟩
  · exact List.Pairwise.imp (fun h => posLe_of_tupleLe h)
      (List.sorted_mergeSort tupleLe_trans tupleLe_total tuples)
  · intro steps trace ret hcontra
    rw [h1] at hcontra
    exact BuildResult.noConfusion (Except.ok.inj hcontra)

/-- Witness for C7: the concrete two-module document whose `in1` module
declares a prompt; describe mode returns exactly its declared-input
tuple. -/
theorem C7_describe_mode_inputs_witness :
    ctxDescribe.describe_input = true ∧
    topological_sort (pipeOfDoc docPrompt "pr").graph = .ok ["in1", "out1"] ∧
    collectPrompts (pipeOfDoc docPrompt "pr") ["in1", "out1"] =
      .ok [(JVal.n 0, JVal.s "value1", JVal.s "enter a value",
            JVal.s "text", JVal.s "abc")] ∧
    build_pipeline ctxDescribe (pipeOfDoc docPrompt "pr") =
      .ok (.inputs ([(JVal.n 0, JVal.s "value1", JVal.s "enter a value",
            JVal.s "text", JVal.s "abc")].mergeSort tupleLe)) :=
  have h := @C7_describe_mode_inputs ctxDescribe (pipeOfDoc docPrompt "pr")
    ["in1", "out1"]
    [(JVal.n 0, JVal.s "value1", JVal.s "enter a value",
      JVal.s "text", JVal.s "abc")]
    rfl rfl rfl
  ⟨rfl, rfl, rfl, h.1⟩

/-- C8: `stringify_pipe` is a pure function of the pipe and the context;
two runs on the same inputs produce the identical generated text — same
statement order, same rendering of every argument. -/
theorem C8_stringify_deterministic
    {context1 context2 : Context} {pipe1 pipe2 : Pipe}
    (hc : context1 = context2) (hp : pipe1 = pipe2) :
    stringify_pipe context1 pipe1 = stringify_pipe context2 pipe2 := by
  rw [hc, hp]

/-- Witness for C8: two runs on the concrete two-module document agree. -/
theorem C8_stringify_deterministic_witness :
    stringify_pipe ctxRun (pipeOfDoc docAB "ab") =
      stringify_pipe ctxRun (pipeOfDoc docAB "ab") :=
  C8_stringify_deterministic rfl rfl

/-! ## Backend correspondence (C9) -/

theorem dictGet_of_dictGetE {α : Type} {d : List (String × α)} {k : String} {v : α}
    (h : dictGetE d k = .ok v) : dictGet d k = some v := by
  unfold dictGetE at h
  cases hg : dictGet d k with
  | none => rw [hg] at h; exact Except.noConfusion h
  | some w =>
      rw [hg, Except.ok.injEq] at h
      rw [h]

theorem stepName_of_dictGetE {steps : List (String × StepObj)} {n : String}
    {st : StepObj}
    (hinv : ∀ kv ∈ steps, stepName kv.2 = kv.1)
    (h : dictGetE steps n = .ok st) : stepName st = n :=
  hinv (n, st) (mem_of_dictGet (dictGet_of_dictGetE h))

theorem dictSet_append_of_not_mem {α : Type} {d : List (String × α)} {k : String}
    (v : α) (h : k ∉ d.map Prod.fst) : dictSet d k v = d ++ [(k, v)] := by
  induction d with
  | nil => rfl
  | cons kv rest ih =>
      unfold dictSet
      have hk : ¬ kv.1 = k := by
        intro hc
        exact h (by simp [hc])
      rw [if_neg (by simpa using hk)]
      rw [ih (fun hc => h (List.mem_cons_of_mem _ hc))]
      rfl

theorem mem_dictSet {α : Type} {d : List (String × α)} {k : String} {v : α} :
    ∀ {x : String × α}, x ∈ dictSet d k v → x ∈ d ∨ x = (k, v) := by
  induction d with
  | nil =>
      intro x hx
      simp [dictSet] at hx
      exact Or.inr hx
  | cons kv rest ih =>
      intro x hx
      unfold dictSet at hx
      by_cases hk : kv.1 == k
      · rw [if_pos hk] at hx
        rcases List.mem_cons.1 hx with h1 | h1
        · exact Or.inr h1
        · exact Or.inl (List.mem_cons_of_mem _ h1)
      · rw [if_neg hk] at hx
        rcases List.mem_cons.1 hx with h1 | h1
        · exact Or.inl (h1 ▸ List.mem_cons_self _ _)
        · rcases ih h1 with h2 | h2
          · exact Or.inl (List.mem_cons_of_mem _ h2)
          · exact Or.inr h2

theorem stepInv_dictSet {steps : List (String × StepObj)} {mid : String}
    (hinv : ∀ kv ∈ steps, stepName kv.2 = kv.1) :
    ∀ kv ∈ dictSet steps mid (StepObj.step mid), stepName kv.2 = kv.1 := by
  intro kv hkv
  rcases mem_dictSet hkv with h | h
  · exact hinv kv h
  · rw [h]
    rfl

theorem defaultInputScan_name (steps : List (String × StepObj)) (mid : String)
    (hinv : ∀ kv ∈ steps, stepName kv.2 = kv.1) :
    ∀ (wires : List (String × Wire)) (st : StepObj) {out : PyVal},
      defaultInputScan steps mid wires (PyVal.obj st) = .ok out →
      ∃ st2, out = PyVal.obj st2 ∧
        stepName st2 = strDefaultInputScan mid wires (stepName st) := by
  intro wires
  induction wires with
  | nil =>
      intro st out hout
      rw [defaultInputScan_nil, Except.ok.injEq] at hout
      exact ⟨st, hout.symm, rfl⟩
  | cons kv rest ih =>
      intro st out hout
      rw [defaultInputScan_cons] at hout
      unfold strDefaultInputScan
      by_cases hcond : (pythonise kv.2.tgt.moduleid == mid &&
          kv.2.tgt.id == "_INPUT" && startswith kv.2.src.id "_OUTPUT") = true
      · rw [if_pos hcond] at hout
        rw [if_pos hcond]
        cases hs : dictGetE steps (pythonise kv.2.src.moduleid) with
        | error e =>
            rw [hs] at hout
            exact Except.noConfusion hout
        | ok v =>
            rw [hs] at hout
            obtain ⟨st2, h1, h2⟩ := ih v hout
            refine ⟨st2, h1, ?_⟩
            rw [h2, stepName_of_dictGetE hinv hs]
      · rw [if_neg hcond] at hout
        rw [if_neg hcond]
        exact ih st hout

theorem buildDefaultInput_name {steps : List (String × StepObj)}
    {wires : List (String × Wire)} {mid : String} {out : PyVal}
    (hinv : ∀ kv ∈ steps, stepName kv.2 = kv.1)
    (hout : buildDefaultInput steps wires mid = .ok out) :
    ∃ st, out = PyVal.obj st ∧ stepName st = strDefaultInput wires mid := by
  unfold buildDefaultInput at hout
  cases hf : dictGetE steps "forever" with
  | error e =>
      rw [hf, except_bind_error] at hout
      exact Except.noConfusion hout
  | ok f0 =>
      rw [hf, except_bind_ok] at hout
      obtain ⟨st, h1, h2⟩ := defaultInputScan_name steps mid hinv wires f0 hout
      refine ⟨st, h1, ?_⟩
      rw [h2, stepName_of_dictGetE hinv hf]
      rfl

theorem kargsScan_forall₂ (steps : List (String × StepObj)) (mid : String)
    (hinv : ∀ kv ∈ steps, stepName kv.2 = kv.1) :
    ∀ (wires : List (String × Wire)) (kargs : List (String × PyVal))
      (skargs : List (String × StrArg)),
      List.Forall₂ kargRel kargs skargs →
      (∀ kv ∈ wires, isAuxWire mid kv = true →
        pythonise kv.2.tgt.id ∉ kargs.map Prod.fst) →
      ((wires.filter (fun kv => isAuxWire mid kv)).map
        (fun kv => pythonise kv.2.tgt.id)).Nodup →
      ∀ {out : List (String × PyVal)},
        extraKargsScan steps mid wires kargs = .ok out →
        List.Forall₂ kargRel out (strKwargsScan mid wires skargs) := by
  intro wires
  induction wires with
  | nil =>
      intro kargs skargs hrel _ _ out hout
      rw [extraKargsScan_nil, Except.ok.injEq] at hout
      subst hout
      exact hrel
  | cons kv rest ih =>
      intro kargs skargs hrel hfresh hnodup out hout
      rw [extraKargsScan_cons] at hout
      by_cases haux : isAuxWire mid kv = true
      · have hcond : (pythonise kv.2.tgt.moduleid == mid &&
            kv.2.tgt.id != "_INPUT" && startswith kv.2.src.id "_OUTPUT") = true := haux
        rw [if_pos hcond] at hout
        have hstep : strKwargsScan mid (kv :: rest) skargs =
            strKwargsScan mid rest
              (skargs ++ [(pythonise kv.2.tgt.id,
                StrArg.idArg (pythonise kv.2.src.moduleid))]) := by
          rw [strKwargsScan_cons, if_pos hcond]
        rw [hstep]
        cases hs : dictGetE steps (pythonise kv.2.src.moduleid) with
        | error e =>
            rw [hs] at hout
            exact Except.noConfusion hout
        | ok v =>
            rw [hs] at hout
            have hset : dictSet kargs (pythonise kv.2.tgt.id) (PyVal.obj v) =
                kargs ++ [(pythonise kv.2.tgt.id, PyVal.obj v)] :=
              dictSet_append_of_not_mem _
                (hfresh kv (List.mem_cons_self _ _) haux)
            have hout2 : extraKargsScan steps mid rest
                (dictSet kargs (pythonise kv.2.tgt.id) (PyVal.obj v)) = .ok out := hout
            rw [hset] at hout2
            have hfilter : (kv :: rest).filter (fun kv2 => isAuxWire mid kv2) =
                kv :: rest.filter (fun kv2 => isAuxWire mid kv2) :=
              List.filter_cons_of_pos haux
            rw [hfilter, List.map_cons, List.nodup_cons] at hnodup
            have hrel' : List.Forall₂ kargRel
                (kargs ++ [(pythonise kv.2.tgt.id, PyVal.obj v)])
                (skargs ++ [(pythonise kv.2.tgt.id,
                  StrArg.idArg (pythonise kv.2.src.moduleid))]) := by
              refine List.rel_append hrel ?_
              refine List.Forall₂.cons ⟨rfl, Or.inr ⟨v, rfl, ?_⟩⟩ List.Forall₂.nil
              rw [stepName_of_dictGetE hinv hs]
            have hfresh' : ∀ kv2 ∈ rest, isAuxWire mid kv2 = true →
                pythonise kv2.2.tgt.id ∉
                  (kargs ++ [(pythonise kv.2.tgt.id, PyVal.obj v)]).map Prod.fst := by
              intro kv2 h2 haux2 hc
              rw [List.map_append, List.mem_append] at hc
              rcases hc with hc | hc
              · exact hfresh kv2 (List.mem_cons_of_mem _ h2) haux2 hc
              · simp only [List.map_cons, List.map_nil, List.mem_singleton] at hc
                apply hnodup.1
                rw [← hc]
                exact List.mem_map_of_mem _ (List.mem_filter.2 ⟨h2, haux2⟩)
            exact ih _ _ hrel' hfresh' hnodup.2 hout2
      · have hcond : (pythonise kv.2.tgt.moduleid == mid &&
            kv.2.tgt.id != "_INPUT" && startswith kv.2.src.id "_OUTPUT") = false := by
          rw [Bool.eq_false_iff]
          intro hc
          exact haux hc
        rw [if_neg (by rw [hcond]; exact Bool.false_ne_true)] at hout
        have hstep : strKwargsScan mid (kv :: rest) skargs =
            strKwargsScan mid rest skargs := by
          rw [strKwargsScan_cons, if_neg (by rw [hcond]; exact Bool.false_ne_true)]
        rw [hstep]
        have hfilter : (kv :: rest).filter (fun kv2 => isAuxWire mid kv2) =
            rest.filter (fun kv2 => isAuxWire mid kv2) :=
          List.filter_cons_of_neg haux
        rw [hfilter] at hnodup
        exact ih _ _ hrel
          (fun kv2 h2 haux2 => hfresh kv2 (List.mem_cons_of_mem _ h2) haux2)
          hnodup hout

theorem absKw_forall₂ :
    ∀ {brest : List (String × PyVal)} {srest : List (String × StrArg)},
      List.Forall₂ kargRel brest srest →
      (∀ kv ∈ srest, ∃ nm, kv.2 = StrArg.idArg nm) →
      ∃ kws,
        brest.mapM (fun (kv : String × PyVal) =>
          match kv.2 with
          | PyVal.obj st2 => some (kv.1, stepName st2)
          | _ => (none : Option (String × String))) = some kws ∧
        srest.mapM (fun (kv : String × StrArg) =>
          match kv.2 with
          | StrArg.idArg nm => some (kv.1, nm)
          | _ => (none : Option (String × String))) = some kws := by
  intro brest srest hrel
  induction hrel with
  | nil =>
      intro _
      exact ⟨[], rfl, rfl⟩
  | cons hr hrest ih =>
      intro hid
      obtain ⟨kws, hb, hs⟩ := ih (fun kv h => hid kv (List.mem_cons_of_mem _ h))
      rename_i b s brest2 srest2
      obtain ⟨nm, hnm⟩ := hid s (List.mem_cons_self _ _)
      obtain ⟨hfst, hcase⟩ := hr
      rcases hcase with ⟨cf, _, hs2⟩ | ⟨st, hb2, hs2⟩
      · rw [hnm] at hs2
        exact StrArg.noConfusion hs2
      · refine ⟨(b.1, stepName st) :: kws, ?_, ?_⟩
        · rw [List.mapM_cons, hb, hb2]
          rfl
        · rw [List.mapM_cons, hs, hs2, hfst]
          rfl

theorem absBuild_eq (mid gen : String) (st : StepObj) (cf : Conf)
    (rest : List (String × PyVal)) :
    absBuild ⟨mid, gen, [PyVal.ctx, PyVal.obj st], ("conf", PyVal.confv cf) :: rest⟩ =
      (rest.mapM (fun (kv : String × PyVal) =>
        match kv.2 with
        | PyVal.obj st2 => some (kv.1, stepName st2)
        | _ => (none : Option (String × String)))).map
        (fun kws => ⟨mid, gen, stepName st, cf, kws⟩) := rfl

theorem absStmt_eq (mid pym gen inp : String) (cf : Conf)
    (rest : List (String × StrArg)) :
    absStmt ⟨mid, pym, gen, [StrArg.idArg "context", StrArg.idArg inp],
        ("conf", StrArg.confArg cf) :: rest, false⟩ =
      (rest.mapM (fun (kv : String × StrArg) =>
        match kv.2 with
        | StrArg.idArg nm => some (kv.1, nm)
        | _ => (none : Option (String × String)))).map
        (fun kws => ⟨mid, gen, inp, cf, kws⟩) := rfl

theorem processModule_plain {pipe : Pipe} (hemb : pipe.embed = [])
    {mid : String} {module : RawModule}
    (hm : dictGetE pipe.modules mid = .ok module)
    (hl : (module.type_ == "loop") = false)
    (hs : (module.type_ == "split") = false) :
    processModule pipe steps mid =
      (buildDefaultInput steps pipe.wires mid >>= fun input_module =>
        extraKargsScan steps mid pipe.wires [("conf", PyVal.confv module.conf)] >>=
          fun kargs =>
        pure (dictSet steps mid (StepObj.step mid),
          (⟨mid,
            (if startswith module.type_ "pipe:" then pythonise module.type_
             else "pipe_" ++ module.type_),
            [PyVal.ctx, input_module], kargs⟩ : BuildCall))) := by
  unfold processModule
  rw [hm, except_bind_ok, hemb]
  simp only [List.any_nil, Bool.false_eq_true, if_false, pure_bind, hl, hs]

theorem strProcessModule_plain {pipe : Pipe} (hemb : pipe.embed = [])
    {mid : String} {module : RawModule}
    (hm : dictGetE pipe.modules mid = .ok module)
    (hl : (module.type_ == "loop") = false)
    (hs : (module.type_ == "split") = false) :
    strProcessModule pipe mid = .ok
      ⟨mid,
       (if startswith module.type_ "pipe:" then pythonise module.type_
        else "pipe" ++ module.type_),
       (if startswith module.type_ "pipe:" then pythonise module.type_
        else "pipe_" ++ module.type_),
       [StrArg.idArg "context", StrArg.idArg (strDefaultInput pipe.wires mid)],
       strKwargsScan mid pipe.wires [("conf", StrArg.confArg module.conf)],
       false⟩ := by
  unfold strProcessModule
  rw [hm, except_bind_ok, hemb]
  simp only [List.any_nil, Bool.false_eq_true, if_false, pure_bind, hl, hs]
  rfl

theorem processModule_str_correspond
    {pipe : Pipe} (hemb : pipe.embed = [])
    (hmods : ∀ kv ∈ pipe.modules, kv.2.type_ ≠ "loop" ∧ kv.2.type_ ≠ "split")
    {mid : String}
    (hport : ("conf" :: (pipe.wires.filter (fun kv => isAuxWire mid kv)).map
        (fun kv => pythonise kv.2.tgt.id)).Nodup)
    {steps : List (String × StepObj)}
    (hinv : ∀ kv ∈ steps, stepName kv.2 = kv.1)
    {steps2 : List (String × StepObj)} {call : BuildCall}
    (hok : processModule pipe steps mid = .ok (steps2, call)) :
    ∃ stmt, strProcessModule pipe mid = .ok stmt ∧
      absBuild call = absStmt stmt ∧
      (absBuild call).isSome = true ∧
      steps2 = dictSet steps mid (StepObj.step mid) := by
  cases hm : dictGetE pipe.modules mid with
  | error e =>
      unfold processModule at hok
      rw [hm, except_bind_error] at hok
      exact Except.noConfusion hok
  | ok module =>
      have hmem : (mid, module) ∈ pipe.modules :=
        mem_of_dictGet (dictGet_of_dictGetE hm)
      have hl : (module.type_ == "loop") = false := by
        have := (hmods (mid, module) hmem).1
        simpa using this
      have hsp : (module.type_ == "split") = false := by
        have := (hmods (mid, module) hmem).2
        simpa using this
      rw [processModule_plain hemb hm hl hsp] at hok
      cases hdi : buildDefaultInput steps pipe.wires mid with
      | error e =>
          rw [hdi, except_bind_error] at hok
          exact Except.noConfusion hok
      | ok input_module =>
          rw [hdi, except_bind_ok] at hok
          cases hek : extraKargsScan steps mid pipe.wires
              [("conf", PyVal.confv module.conf)] with
          | error e =>
              rw [hek, except_bind_error] at hok
              exact Except.noConfusion hok
          | ok kargs =>
              rw [hek, except_bind_ok] at hok
              have hok2 : Except.ok
                  ((dictSet steps mid (StepObj.step mid),
                    (⟨mid,
                      (if startswith module.type_ "pipe:" then pythonise module.type_
                       else "pipe_" ++ module.type_),
                      [PyVal.ctx, input_module], kargs⟩ : BuildCall)) :
                    List (String × StepObj) × BuildCall) = .ok (steps2, call) := hok
              rw [Except.ok.injEq, Prod.mk.injEq] at hok2
              obtain ⟨hsteps2, hcall⟩ := hok2
              obtain ⟨st0, hin, hname⟩ := buildDefaultInput_name hinv hdi
              subst hin
              have hfresh : ∀ kv ∈ pipe.wires, isAuxWire mid kv = true →
                  pythonise kv.2.tgt.id ∉
                    ([("conf", PyVal.confv module.conf)] :
                      List (String × PyVal)).map Prod.fst := by
                intro kv hkv haux hc
                simp only [List.map_cons, List.map_nil, List.mem_singleton] at hc
                rw [List.nodup_cons] at hport
                apply hport.1
                rw [← hc]
                exact List.mem_map_of_mem _ (List.mem_filter.2 ⟨hkv, haux⟩)
              have hrel0 : List.Forall₂ kargRel
                  ([("conf", PyVal.confv module.conf)] : List (String × PyVal))
                  ([("conf", StrArg.confArg module.conf)] : List (String × StrArg)) :=
                List.Forall₂.cons ⟨rfl, Or.inl ⟨module.conf, rfl, rfl⟩⟩
                  List.Forall₂.nil
              have hrel := kargsScan_forall₂ steps mid hinv pipe.wires _ _
                hrel0 hfresh (List.nodup_cons.1 hport).2 hek
              rw [strKwargsScan_char, List.singleton_append,
                List.forall₂_cons_right_iff] at hrel
              obtain ⟨b0, brest, hr0, hrest, hkargs⟩ := hrel
              subst hkargs
              obtain ⟨p0, v0⟩ := b0
              obtain ⟨hp0, hc0⟩ := hr0
              rcases hc0 with ⟨cf0, hv0, hcf0⟩ | ⟨st1, _, hid0⟩
              · simp only at hp0 hv0 hcf0
                rw [StrArg.confArg.injEq] at hcf0
                obtain ⟨kws, hbkw, hskw⟩ := absKw_forall₂ hrest (by
                  intro kv hkv
                  obtain ⟨w, _, hw⟩ := List.mem_map.1 hkv
                  exact ⟨pythonise w.2.src.moduleid, by rw [← hw]⟩)
                refine ⟨_, strProcessModule_plain hemb hm hl hsp, ?_, ?_, hsteps2.symm⟩
                · rw [← hcall]
                  subst hp0 hv0
                  rw [← hcf0]
                  rw [absBuild_eq, strKwargsScan_char, List.singleton_append,
                    absStmt_eq, hbkw, hskw, hname]
                · rw [← hcall]
                  subst hp0 hv0
                  rw [absBuild_eq, hbkw]
                  rfl
              · exact StrArg.noConfusion hid0

theorem mainLoop_str_correspond
    {pipe : Pipe} (hemb : pipe.embed = [])
    (hmods : ∀ kv ∈ pipe.modules, kv.2.type_ ≠ "loop" ∧ kv.2.type_ ≠ "split") :
    ∀ (seq : List String),
      (∀ mid ∈ seq, ("conf" :: (pipe.wires.filter
        (fun kv => isAuxWire mid kv)).map (fun kv => pythonise kv.2.tgt.id)).Nodup) →
      ∀ (steps : List (String × StepObj)),
      (∀ kv ∈ steps, stepName kv.2 = kv.1) →
      ∀ (t0 : List BuildCall) (s0 : List EmitStmt) (prev0 : Option String)
        {steps2 : List (String × StepObj)} {trace : List BuildCall}
        {lastOpt : Option String},
      mainLoop pipe seq steps t0 = .ok (steps2, trace, lastOpt) →
      ∃ (newT : List BuildCall) (stmts : List EmitStmt) (ds : List CallDesc),
        trace = t0 ++ newT ∧
        strStmtLoop pipe seq s0 prev0 = .ok (s0 ++ stmts, lastOpt.or prev0) ∧
        newT.mapM absBuild = some ds ∧
        stmts.mapM absStmt = some ds ∧
        (∀ kv ∈ steps2, stepName kv.2 = kv.1) := by
  intro seq
  induction seq with
  | nil =>
      intro _ steps hinv t0 s0 prev0 steps2 trace lastOpt hml
      rw [mainLoop_nil, Except.ok.injEq, Prod.mk.injEq] at hml
      obtain ⟨h1, hml⟩ := hml
      rw [Prod.mk.injEq] at hml
      obtain ⟨h2, h3⟩ := hml
      subst h1 h2 h3
      exact ⟨[], [], [], by simp, by rw [strStmtLoop_nil]; simp, rfl, rfl, hinv⟩
  | cons mid rest ih =>
      intro hports steps hinv t0 s0 prev0 steps2 trace lastOpt hml
      rw [mainLoop_cons] at hml
      cases hp : processModule pipe steps mid with
      | error e =>
          rw [hp] at hml
          exact Except.noConfusion hml
      | ok pr =>
          obtain ⟨steps1, call⟩ := pr
          rw [hp] at hml
          have hml2 : (match mainLoop pipe rest steps1 (t0 ++ [call]) with
              | Except.ok (s, t, lastOpt2) => Except.ok (s, t, some (lastOpt2.getD mid))
              | Except.error e => Except.error e) =
              Except.ok (steps2, trace, lastOpt) := hml
      
          obtain ⟨stmt, hstmt, habs, hsome, hsteps1⟩ :=
            processModule_str_correspond hemb hmods
              (hports mid (List.mem_cons_self _ _)) hinv hp
          subst hsteps1
          cases hrec : mainLoop pipe rest (dictSet steps mid (StepObj.step mid))
              (t0 ++ [call]) with
          | error e =>
              rw [hrec] at hml2
              exact Except.noConfusion hml2
          | ok res =>
              obtain ⟨s, t, lastOpt2⟩ := res
              rw [hrec] at hml2
              have hml3 : (Except.ok (s, t, some (lastOpt2.getD mid)) :
                  Except (PyErr × List BuildCall)
                    (List (String × StepObj) × List BuildCall × Option String)) =
                  Except.ok (steps2, trace, lastOpt) := hml2
              rw [Except.ok.injEq, Prod.mk.injEq] at hml3
              obtain ⟨h1, hml3⟩ := hml3
              rw [Prod.mk.injEq] at hml3
              obtain ⟨h2, h3⟩ := hml3
              subst h1 h2
              obtain ⟨newT, stmts, ds, hT, hSL, hmT, hmS, hinv2⟩ :=
                ih (fun m hm => hports m (List.mem_cons_of_mem _ hm))
                  (dictSet steps mid (StepObj.step mid))
                  (stepInv_dictSet hinv)
                  (t0 ++ [call]) (s0 ++ [stmt]) (some mid) hrec
              obtain ⟨d0, hd0⟩ := Option.isSome_iff_exists.1 hsome
              refine ⟨call :: newT, stmt :: stmts, d0 :: ds, ?_, ?_, ?_, ?_, hinv2⟩
              · rw [hT]
                simp
              · rw [strStmtLoop_cons, hstmt]
                show strStmtLoop pipe rest (s0 ++ [stmt]) (some mid) = _
                rw [hSL]
                have hl1 : (s0 ++ [stmt]) ++ stmts = s0 ++ (stmt :: stmts) := by
                  simp
                rw [hl1]
                have hl2 : lastOpt2.or (some mid) = lastOpt.or prev0 := by
                  rw [← h3]
                  cases lastOpt2 <;> rfl
                rw [hl2]
              · rw [List.mapM_cons, hd0, hmT]
                rfl
              · rw [List.mapM_cons, ← habs, hd0, hmS]
                rfl

/-- C9 (amended): for a pipe with no loop, split or sub-pipeline-reference
modules, no embedded-module registrations, and — per module — distinct
auxiliary input ports none of which is named `conf`, the two backends make
literally the same sequence of constructor calls and return the same
bound name: the abstract call sequence of `build_pipeline`'s invocation
trace equals that of `stringify_pipe`'s generated statements, so under
every interpretation of the operator factories, consuming backend A's
pipeline and executing backend B's generated program from the same
initial environment yield the same result.  (As stated the claim is
false: `build_pipeline` resolves several wires into one auxiliary port by
dictionary overwrite while `stringify_pipe` emits one duplicate keyword
argument per wire — see the counterexample.) -/
theorem C9_backend_equivalence_amended
    {context : Context} {pipe : Pipe} {seq : List String}
    {steps2 : List (String × StepObj)} {trace : List BuildCall}
    {lastId : String} {ret : StepObj}
    (hemb : pipe.embed = [])
    (hmods : ∀ kv ∈ pipe.modules, kv.2.type_ ≠ "loop" ∧ kv.2.type_ ≠ "split" ∧
      startswith kv.2.type_ "pipe:" = false)
    (hports : ∀ mid ∈ seq, ("conf" :: (pipe.wires.filter
      (fun kv => isAuxWire mid kv)).map (fun kv => pythonise kv.2.tgt.id)).Nodup)
    (hdi : context.describe_input = false)
    (hseq : topological_sort pipe.graph = .ok seq)
    (hfp : (firstPass context pipe seq []).toOption.isSome = true)
    (hsfp : (strFirstPass pipe seq [] []).toOption.isSome = true)
    (hml : mainLoop pipe seq [("forever", StepObj.forever)] [] =
      .ok (steps2, trace, some lastId))
    (hret : dictGetE steps2 lastId = .ok ret) :
    ∃ ds : List CallDesc,
      buildDescs (build_pipeline context pipe) = some (ds, stepName ret) ∧
      strDescs (stringify_core context pipe) = some (ds, stepName ret) ∧
      ∀ (α : Type) (froot : α) (F : String → α → Conf → List (String × α) → α),
        backendRun froot F (buildDescs (build_pipeline context pipe)) =
          backendRun froot F (strDescs (stringify_core context pipe)) := by
  obtain ⟨pyin, hfp'⟩ := exists_ok_of_toOption_isSome hfp
  obtain ⟨fpv, hsfp'⟩ := exists_ok_of_toOption_isSome hsfp
  obtain ⟨imp, pyin2⟩ := fpv
  have hinv0 : ∀ kv ∈ [("forever", StepObj.forever)], stepName kv.2 = kv.1 := by
    intro kv hkv
    rw [List.mem_singleton] at hkv
    rw [hkv]
    rfl
  obtain ⟨newT, stmts, ds, hT, hSL, hmT, hmS, hinv2⟩ :=
    mainLoop_str_correspond hemb
      (fun kv h => ⟨(hmods kv h).1, (hmods kv h).2.1⟩) seq hports _ hinv0 [] [] none hml
  rw [List.nil_append] at hT
  subst hT
  rw [List.nil_append] at hSL
  have hSL2 : strStmtLoop pipe seq [] none = .ok (stmts, some lastId) := hSL
  have hlast : stepName ret = lastId := stepName_of_dictGetE hinv2 hret
  have hb : build_pipeline context pipe =
      (match firstPass context pipe seq [] with
       | Except.error e => Except.error ⟨e, []⟩
       | Except.ok pyinput =>
         if context.describe_input = true then
           Except.ok (BuildResult.inputs (pyinput.mergeSort tupleLe))
         else
           match mainLoop pipe seq [("forever", StepObj.forever)] [] with
           | Except.error (e, tr) =>
               Except.error ⟨e, "forever" :: tr.map (fun c => c.module_id)⟩
           | Except.ok (steps, tr, lastOpt) =>
             match lastOpt with
             | none => Except.error ⟨PyErr.nameError "module_id",
                 "forever" :: tr.map (fun c => c.module_id)⟩
             | some module_id =>
               match dictGetE steps module_id with
               | Except.error e => Except.error ⟨e,
                   "forever" :: tr.map (fun c => c.module_id)⟩
               | Except.ok r => Except.ok (BuildResult.pipeline steps tr r)) := by
    unfold build_pipeline
    rw [hseq]
  rw [hfp', hdi, hml] at hb
  have hb2 : build_pipeline context pipe =
      (match dictGetE steps2 lastId with
       | Except.error e => Except.error ⟨e,
           "forever" :: trace.map (fun c => c.module_id)⟩
       | Except.ok r => Except.ok (BuildResult.pipeline steps2 trace r)) := hb
  rw [hret] at hb2
  have hbuild : build_pipeline context pipe =
      .ok (.pipeline steps2 trace ret) := hb2
  have hstr : stringify_core context pipe = .ok ⟨imp, pyin2, stmts, some lastId⟩ := by
    unfold stringify_core
    rw [hseq]
    simp only [except_bind_ok]
    rw [hsfp']
    simp only [except_bind_ok]
    rw [hSL2]
    simp only [except_bind_ok]
    rfl
  have hbD : buildDescs (build_pipeline context pipe) = some (ds, stepName ret) := by
    rw [hbuild]
    show (trace.mapM absBuild).map (fun ds2 => (ds2, stepName ret)) =
      some (ds, stepName ret)
    rw [hmT]
    rfl
  have hsD : strDescs (stringify_core context pipe) = some (ds, stepName ret) := by
    rw [hstr]
    show (stmts.mapM absStmt).map (fun ds2 => (ds2, lastId)) = some (ds, stepName ret)
    rw [hmS, hlast]
    rfl
  refine ⟨ds, hbD, hsD, ?_⟩
  intro α froot F
  rw [hbD, hsD]

/-- Witness for the amended C9: on the concrete two-module pipe, running
backend A's call sequence and backend B's generated program under the
same factory interpretation yields the same result. -/
theorem C9_backend_equivalence_amended_witness :
    backendRun 0 countF (buildDescs (build_pipeline ctxRun (pipeOfDoc docAB "ab"))) =
      backendRun 0 countF (strDescs (stringify_core ctxRun (pipeOfDoc docAB "ab"))) :=
  (@C9_backend_equivalence_amended ctxRun (pipeOfDoc docAB "ab") ["a3", "b3"]
      _ _ "b3" _ rfl (by decide) (by decide) rfl rfl rfl rfl rfl rfl).elim
    (fun ds hds => hds.2.2 Nat 0 countF)

/-- Counterexample to C9 as stated: on the concrete pipe `docDup`, whose
two wires feed the same auxiliary port `RULE` of module `m1`,
`build_pipeline` resolves the port by dictionary overwrite (last wire
wins) and produces a working pipeline, while the program generated by
`stringify_pipe` passes the keyword argument `RULE` twice — a
`TypeError` at call time, modelled as the failing run — so consuming
backend A's output and executing backend B's program do not yield the
same records. -/
theorem C9_backend_equivalence_counterexample :
    backendRun 0 countF (buildDescs (build_pipeline ctxRun (pipeOfDoc docDup "dup"))) =
      some 0 ∧
    backendRun 0 countF (strDescs (stringify_core ctxRun (pipeOfDoc docDup "dup"))) =
      none :=
  ⟨by decide, by decide⟩

/-! ## Dangling wires (C10) -/

theorem dictGet_isSome_dictSet_inv {α : Type} {d : List (String × α)} {k n : String}
    {v : α} (h : (dictGet (dictSet d k v) n).isSome = true) :
    (dictGet d n).isSome = true ∨ n = k := by
  rw [dictGet_dictSet] at h
  by_cases hk : k = n
  · exact Or.inr hk.symm
  · rw [if_neg hk] at h
    exact Or.inl h

theorem parseModule_modules_keys {st st1 : ParseSt} {m : RawModule}
    (h : parseModule st m = .ok st1) :
    ∀ n, (dictGet st1.modules n).isSome = true →
      (dictGet st.modules n).isSome = true ∨ n ∈ moduleIds m := by
  rw [parseModule_eq] at h
  by_cases ht : m.type_ == "loop"
  · rw [if_pos ht] at h
    cases he : m.conf.embedValue with
    | error e => rw [he, except_bind_error] at h; exact Except.noConfusion h
    | ok em =>
        rw [he, except_bind_ok] at h
        cases ha : graphAppend (dictSet (dictSet st.graph (pythonise m.id) [])
            (pythonise em.id) []) (pythonise em.id) (pythonise m.id) with
        | error e => rw [ha, except_bind_error] at h; exact Except.noConfusion h
        | ok g3 =>
            rw [ha, except_bind_ok, Except.ok.injEq] at h
            subst h
            intro n hn
            simp only at hn
            rcases dictGet_isSome_dictSet_inv hn with hn2 | hn2
            · rcases dictGet_isSome_dictSet_inv hn2 with hn3 | hn3
              · exact Or.inl hn3
              · refine Or.inr ?_
                rw [hn3]
                exact List.mem_cons_self _ _
            · refine Or.inr ?_
              unfold moduleIds
              rw [if_pos ht, embedValue_get he, hn2]
              exact List.mem_cons_of_mem _ (List.mem_singleton.2 rfl)
  · rw [if_neg ht, Except.ok.injEq] at h
    subst h
    intro n hn
    simp only at hn
    rcases dictGet_isSome_dictSet_inv hn with hn2 | hn2
    · exact Or.inl hn2
    · refine Or.inr ?_
      rw [hn2]
      exact List.mem_cons_self _ _

theorem parseModule_graph_keys {st st1 : ParseSt} {m : RawModule}
    (h : parseModule st m = .ok st1) :
    ∀ n, (dictGet st1.graph n).isSome = true →
      (dictGet st.graph n).isSome = true ∨ n ∈ moduleIds m := by
  rw [parseModule_eq] at h
  by_cases ht : m.type_ == "loop"
  · rw [if_pos ht] at h
    cases he : m.conf.embedValue with
    | error e => rw [he, except_bind_error] at h; exact Except.noConfusion h
    | ok em =>
        rw [he, except_bind_ok] at h
        cases ha : graphAppend (dictSet (dictSet st.graph (pythonise m.id) [])
            (pythonise em.id) []) (pythonise em.id) (pythonise m.id) with
        | error e => rw [ha, except_bind_error] at h; exact Except.noConfusion h
        | ok g3 =>
            rw [ha, except_bind_ok, Except.ok.injEq] at h
            subst h
            intro n hn
            simp only at hn
            obtain ⟨l0, _, hg3⟩ := graphAppend_ok ha
            rw [hg3] at hn
            have hemid : n = pythonise em.id → n ∈ moduleIds m := by
              intro hn2
              unfold moduleIds
              rw [if_pos ht, embedValue_get he, hn2]
              exact List.mem_cons_of_mem _ (List.mem_singleton.2 rfl)
            rcases dictGet_isSome_dictSet_inv hn with hn2 | hn2
            · rcases dictGet_isSome_dictSet_inv hn2 with hn3 | hn3
              · rcases dictGet_isSome_dictSet_inv hn3 with hn4 | hn4
                · exact Or.inl hn4
                · refine Or.inr ?_
                  rw [hn4]
                  exact List.mem_cons_self _ _
              · exact Or.inr (hemid hn3)
            · exact Or.inr (hemid hn2)
  · rw [if_neg ht, Except.ok.injEq] at h
    subst h
    intro n hn
    simp only at hn
    rcases dictGet_isSome_dictSet_inv hn with hn2 | hn2
    · exact Or.inl hn2
    · refine Or.inr ?_
      rw [hn2]
      exact List.mem_cons_self _ _

theorem parseModules_modules_keys {mods : List RawModule} :
    ∀ {st st' : ParseSt}, parseModules mods st = .ok st' →
      ∀ n, (dictGet st'.modules n).isSome = true →
        (dictGet st.modules n).isSome = true ∨ n ∈ docIds mods := by
  induction mods with
  | nil =>
      intro st st' h n hn
      rw [parseModules_nil, Except.ok.injEq] at h
      subst h
      exact Or.inl hn
  | cons m rest ih =>
      intro st st' h n hn
      rw [parseModules_cons] at h
      cases hp : parseModule st m with
      | error e => rw [hp, except_bind_error] at h; exact Except.noConfusion h
      | ok st1 =>
          rw [hp, except_bind_ok] at h
          rcases ih h n hn with h2 | h2
          · rcases parseModule_modules_keys hp n h2 with h3 | h3
            · exact Or.inl h3
            · refine Or.inr ?_
              unfold docIds
              exact List.mem_flatMap.2 ⟨m, List.mem_cons_self _ _, h3⟩
          · refine Or.inr ?_
            unfold docIds at h2 ⊢
            obtain ⟨m2, hm2, hn2⟩ := List.mem_flatMap.1 h2
            exact List.mem_flatMap.2 ⟨m2, List.mem_cons_of_mem _ hm2, hn2⟩

theorem parseModules_graph_keys {mods : List RawModule} :
    ∀ {st st' : ParseSt}, parseModules mods st = .ok st' →
      ∀ n, (dictGet st'.graph n).isSome = true →
        (dictGet st.graph n).isSome = true ∨ n ∈ docIds mods := by
  induction mods with
  | nil =>
      intro st st' h n hn
      rw [parseModules_nil, Except.ok.injEq] at h
      subst h
      exact Or.inl hn
  | cons m rest ih =>
      intro st st' h n hn
      rw [parseModules_cons] at h
      cases hp : parseModule st m with
      | error e => rw [hp, except_bind_error] at h; exact Except.noConfusion h
      | ok st1 =>
          rw [hp, except_bind_ok] at h
          rcases ih h n hn with h2 | h2
          · rcases parseModule_graph_keys hp n h2 with h3 | h3
            · exact Or.inl h3
            · refine Or.inr ?_
              unfold docIds
              exact List.mem_flatMap.2 ⟨m, List.mem_cons_self _ _, h3⟩
          · refine Or.inr ?_
            unfold docIds at h2 ⊢
            obtain ⟨m2, hm2, hn2⟩ := List.mem_flatMap.1 h2
            exact List.mem_flatMap.2 ⟨m2, List.mem_cons_of_mem _ hm2, hn2⟩

theorem parseWires_ok_src_key {ws : List Wire} :
    ∀ {g g' : List (String × List String)}, parseWires g ws = .ok g' →
      ∀ w ∈ ws, (dictGet g (pythonise w.src.moduleid)).isSome = true := by
  induction ws with
  | nil => intro g g' _ w hw; exact absurd hw (List.not_mem_nil _)
  | cons w0 rest ih =>
      intro g g' h w hw
      rw [parseWires_cons] at h
      cases ha : graphAppend g (pythonise w0.src.moduleid)
          (pythonise w0.tgt.moduleid) with
      | error e => rw [ha, except_bind_error] at h; exact Except.noConfusion h
      | ok g1 =>
          rw [ha, except_bind_ok] at h
          obtain ⟨l0, hl0, hg1⟩ := graphAppend_ok ha
          rcases List.mem_cons.1 hw with hw1 | hw1
          · rw [hw1, hl0]
            rfl
          · have h2 := ih h w hw1
            rw [hg1] at h2
            rcases dictGet_isSome_dictSet_inv h2 with h3 | h3
            · exact h3
            · rw [h3, hl0]
              rfl

theorem parseWires_mono {ws : List Wire} :
    ∀ {g g' : List (String × List String)}, parseWires g ws = .ok g' →
      ∀ k l, dictGet g k = some l →
        ∃ l2, dictGet g' k = some l2 ∧ ∀ x ∈ l, x ∈ l2 := by
  induction ws with
  | nil =>
      intro g g' h k l hl
      rw [parseWires_nil, Except.ok.injEq] at h
      subst h
      exact ⟨l, hl, fun x hx => hx⟩
  | cons w0 rest ih =>
      intro g g' h k l hl
      rw [parseWires_cons] at h
      cases ha : graphAppend g (pythonise w0.src.moduleid)
          (pythonise w0.tgt.moduleid) with
      | error e => rw [ha, except_bind_error] at h; exact Except.noConfusion h
      | ok g1 =>
          rw [ha, except_bind_ok] at h
          obtain ⟨l0, hl0, hg1⟩ := graphAppend_ok ha
          by_cases hk : k = pythonise w0.src.moduleid
          · subst hk
            rw [hl0, Option.some.injEq] at hl
            subst hl
            have hl1 : dictGet g1 (pythonise w0.src.moduleid) =
                some (l0 ++ [pythonise w0.tgt.moduleid]) := by
              rw [hg1]
              exact dictGet_dictSet_self _ _ _
            obtain ⟨l2, h2, h3⟩ := ih h _ _ hl1
            exact ⟨l2, h2, fun x hx => h3 x (List.mem_append_left _ hx)⟩
          · have hl1 : dictGet g1 k = some l := by
              rw [hg1]
              rw [dictGet_dictSet_ne _ _ _ _ hk]
              exact hl
            exact ih h k l hl1

theorem parseWires_tgt_succ {ws : List Wire} :
    ∀ {g g' : List (String × List String)}, parseWires g ws = .ok g' →
      ∀ w ∈ ws, ∃ l, dictGet g' (pythonise w.src.moduleid) = some l ∧
        pythonise w.tgt.moduleid ∈ l := by
  induction ws with
  | nil => intro g g' _ w hw; exact absurd hw (List.not_mem_nil _)
  | cons w0 rest ih =>
      intro g g' h w hw
      rw [parseWires_cons] at h
      cases ha : graphAppend g (pythonise w0.src.moduleid)
          (pythonise w0.tgt.moduleid) with
      | error e => rw [ha, except_bind_error] at h; exact Except.noConfusion h
      | ok g1 =>
          rw [ha, except_bind_ok] at h
          obtain ⟨l0, hl0, hg1⟩ := graphAppend_ok ha
          rcases List.mem_cons.1 hw with hw1 | hw1
          · subst hw1
            have hl1 : dictGet g1 (pythonise w.src.moduleid) =
                some (l0 ++ [pythonise w.tgt.moduleid]) := by
              rw [hg1]
              exact dictGet_dictSet_self _ _ _
            obtain ⟨l2, h2, h3⟩ := parseWires_mono h _ _ hl1
            exact ⟨l2, h2, h3 _ (List.mem_append_right _ (List.mem_singleton.2 rfl))⟩
          · exact ih h w hw1

theorem firstPass_ok_keys {context : Context} {pipe : Pipe} :
    ∀ {seq : List String} {acc : List InputTuple} {v : List InputTuple},
      firstPass context pipe seq acc = .ok v →
      ∀ mid ∈ seq, (dictGet pipe.modules mid).isSome = true := by
  intro seq
  induction seq with
  | nil => intro acc v _ mid hm; exact absurd hm (List.not_mem_nil _)
  | cons m rest ih =>
      intro acc v h mid hm
      rw [firstPass_cons] at h
      cases hg : dictGetE pipe.modules m with
      | error e => rw [hg, except_bind_error] at h; exact Except.noConfusion h
      | ok module =>
          rw [hg, except_bind_ok] at h
          rcases List.mem_cons.1 hm with hm1 | hm1
          · rw [hm1, dictGet_of_dictGetE hg]
            rfl
          · by_cases hc : (module.conf.truthy && module.conf.hasKey "prompt" &&
                context.describe_input) = true
            · rw [if_pos hc] at h
              cases h1 : module.conf.litValue "position" with
              | error e => rw [h1, except_bind_error] at h; exact Except.noConfusion h
              | ok position =>
              rw [h1, except_bind_ok] at h
              cases h2 : module.conf.litValue "name" with
              | error e => rw [h2, except_bind_error] at h; exact Except.noConfusion h
              | ok name =>
              rw [h2, except_bind_ok] at h
              cases h3 : module.conf.litValue "prompt" with
              | error e => rw [h3, except_bind_error] at h; exact Except.noConfusion h
              | ok prompt =>
              rw [h3, except_bind_ok] at h
              cases h4 : module.conf.litType "default" with
              | error e => rw [h4, except_bind_error] at h; exact Except.noConfusion h
              | ok dtype =>
              rw [h4, except_bind_ok] at h
              cases h5 : module.conf.litValue "default" with
              | error e => rw [h5, except_bind_error] at h; exact Except.noConfusion h
              | ok dvalue =>
              rw [h5, except_bind_ok] at h
              exact ih h mid hm1
            · rw [if_neg hc] at h
              exact ih h mid hm1

theorem strFirstPass_cons (pipe : Pipe) (module_id : String) (rest : List String)
    (imports : List String) (pyinput : List InputTuple) :
    strFirstPass pipe (module_id :: rest) imports pyinput =
      (dictGetE pipe.modules module_id >>= fun module =>
        if module.conf.truthy && module.conf.hasKey "prompt" then
          module.conf.litValue "position" >>= fun position =>
          module.conf.litValue "name" >>= fun name =>
          module.conf.litValue "prompt" >>= fun prompt =>
          module.conf.litType "default" >>= fun dtype =>
          module.conf.litValue "default" >>= fun dvalue =>
          strFirstPass pipe rest
            (if startswith module.type_ "pipe:" then
              imports ++ ["import " ++ pythonise module.type_ ++ "\n"]
             else imports)
            (pyinput ++ [(position, name, prompt, dtype, dvalue)])
        else strFirstPass pipe rest
          (if startswith module.type_ "pipe:" then
            imports ++ ["import " ++ pythonise module.type_ ++ "\n"]
           else imports)
          pyinput) := rfl

theorem strFirstPass_ok_keys {pipe : Pipe} :
    ∀ {seq : List String} {imports : List String} {acc : List InputTuple}
      {v : List String × List InputTuple},
      strFirstPass pipe seq imports acc = .ok v →
      ∀ mid ∈ seq, (dictGet pipe.modules mid).isSome = true := by
  intro seq
  induction seq with
  | nil => intro imports acc v _ mid hm; exact absurd hm (List.not_mem_nil _)
  | cons m rest ih =>
      intro imports acc v h mid hm
      rw [strFirstPass_cons] at h
      cases hg : dictGetE pipe.modules m with
      | error e => rw [hg, except_bind_error] at h; exact Except.noConfusion h
      | ok module =>
          rw [hg, except_bind_ok] at h
          rcases List.mem_cons.1 hm with hm1 | hm1
          · rw [hm1, dictGet_of_dictGetE hg]
            rfl
          · by_cases hc : (module.conf.truthy && module.conf.hasKey "prompt") = true
            · rw [if_pos hc] at h
              cases h1 : module.conf.litValue "position" with
              | error e => rw [h1, except_bind_error] at h; exact Except.noConfusion h
              | ok position =>
              rw [h1, except_bind_ok] at h
              cases h2 : module.conf.litValue "name" with
              | error e => rw [h2, except_bind_error] at h; exact Except.noConfusion h
              | ok name =>
              rw [h2, except_bind_ok] at h
              cases h3 : module.conf.litValue "prompt" with
              | error e => rw [h3, except_bind_error] at h; exact Except.noConfusion h
              | ok prompt =>
              rw [h3, except_bind_ok] at h
              cases h4 : module.conf.litType "default" with
              | error e => rw [h4, except_bind_error] at h; exact Except.noConfusion h
              | ok dtype =>
              rw [h4, except_bind_ok] at h
              cases h5 : module.conf.litValue "default" with
              | error e => rw [h5, except_bind_error] at h; exact Except.noConfusion h
              | ok dvalue =>
              rw [h5, except_bind_ok] at h
              exact ih h mid hm1
            · rw [if_neg hc] at h
              exact ih h mid hm1

/-- C10: a raw pipe document containing a wire whose source or target
module id names no module registered by the document never yields a
pipeline.  A dangling source makes `parse_pipe_def` raise (the graph
append subscripts a missing key); with a dangling target, parsing may
succeed, but the unregistered target id is scheduled, and the first pass
of both `build_pipeline` and `stringify_pipe` raises a `KeyError` before
any step is instantiated — the build error's instantiated list is empty —
so no partial pipeline is ever returned. -/
theorem C10_dangling_wire_structural_error
    {d : PipeDef} {nm : String}
    (hdangle : ∃ w ∈ d.wires, pythonise w.src.moduleid ∉ docIds d.modules ∨
        pythonise w.tgt.moduleid ∉ docIds d.modules) :
    ((∃ w ∈ d.wires, pythonise w.src.moduleid ∉ docIds d.modules) →
      ∃ e, parse_pipe_def d nm = .error e) ∧
    ∀ p, parse_pipe_def d nm = .ok p → ∀ context,
      (∃ e, build_pipeline context p = .error e ∧ e.instantiated = []) ∧
      (∃ e, stringify_pipe context p = .error e) := by
  have hsrc : (∃ w ∈ d.wires, pythonise w.src.moduleid ∉ docIds d.modules) →
      ∃ e, parse_pipe_def d nm = .error e := by
    rintro ⟨w, hw, hns⟩
    cases hpm : parseModules d.modules ⟨[], [], []⟩ with
    | error e =>
        refine ⟨e, ?_⟩
        unfold parse_pipe_def
        rw [hpm, except_bind_error]
    | ok st =>
        have hnone : dictGet st.graph (pythonise w.src.moduleid) = none := by
          cases hq : dictGet st.graph (pythonise w.src.moduleid) with
          | none => rfl
          | some l =>
              exfalso
              have hq2 : (dictGet st.graph (pythonise w.src.moduleid)).isSome = true := by
                rw [hq]
                rfl
              rcases parseModules_graph_keys hpm _ hq2 with h2 | h2
              · simp [dictGet] at h2
              · exact hns h2
        cases hpw : parseWires st.graph d.wires with
        | error e =>
            refine ⟨e, ?_⟩
            unfold parse_pipe_def
            rw [hpm]
            simp only [except_bind_ok]
            rw [hpw, except_bind_error]
        | ok g0 =>
            exfalso
            have h2 := parseWires_ok_src_key hpw w hw
            rw [hnone] at h2
            exact Bool.noConfusion h2
  refine ⟨hsrc, ?_⟩
  intro p hp context
  obtain ⟨w, hw, hcase⟩ := hdangle
  rcases hcase with hns | hnt
  · obtain ⟨e, he⟩ := hsrc ⟨w, hw, hns⟩
    rw [hp] at he
    exact Except.noConfusion he
  · obtain ⟨st, g0, hpm, hpw, hpdef⟩ := parse_pipe_def_ok hp
    subst hpdef
    have hmodnone : dictGet st.modules (pythonise w.tgt.moduleid) = none := by
      cases hq : dictGet st.modules (pythonise w.tgt.moduleid) with
      | none => rfl
      | some mm =>
          exfalso
          have hq2 : (dictGet st.modules (pythonise w.tgt.moduleid)).isSome = true := by
            rw [hq]
            rfl
          rcases parseModules_modules_keys hpm _ hq2 with h2 | h2
          · simp [dictGet] at h2
          · exact hnt h2
    obtain ⟨l, hl, hmem⟩ := parseWires_tgt_succ hpw w hw
    have hpr : dictGet (pruneOrphans g0) (pythonise w.src.moduleid) = some l :=
      pruneOrphans_keeps hl (List.ne_nil_of_mem hmem)
    have hgn : pythonise w.tgt.moduleid ∈ graphNodes (pruneOrphans g0) :=
      mem_graphNodes_of_succ hpr hmem
    cases ht : topological_sort (pruneOrphans g0) with
    | error e =>
        constructor
        · refine ⟨⟨e, []⟩, ?_, rfl⟩
          unfold build_pipeline
          rw [ht]
        · refine ⟨e, stringify_pipe_error_of_core ?_⟩
          unfold stringify_core
          rw [ht, except_bind_error]
    | ok seq =>
        have htin : pythonise w.tgt.moduleid ∈ seq :=
          topological_sort_mem ht _ hgn
        constructor
        · cases hfp : firstPass context
              ⟨pythonise nm, st.modules, st.embed, pruneOrphans g0,
                d.wires.foldl (fun dd w2 => dictSet dd (pythonise w2.id) w2) []⟩
              seq [] with
          | error e =>
              refine ⟨⟨e, []⟩, ?_, rfl⟩
              have hb : build_pipeline context
                  ⟨pythonise nm, st.modules, st.embed, pruneOrphans g0,
                    d.wires.foldl (fun dd w2 => dictSet dd (pythonise w2.id) w2) []⟩ =
                  (match firstPass context
                      ⟨pythonise nm, st.modules, st.embed, pruneOrphans g0,
                        d.wires.foldl (fun dd w2 => dictSet dd (pythonise w2.id) w2) []⟩
                      seq [] with
                   | Except.error e2 => Except.error ⟨e2, []⟩
                   | Except.ok pyinput =>
                     if context.describe_input = true then
                       Except.ok (BuildResult.inputs (pyinput.mergeSort tupleLe))
                     else
                       match mainLoop
                           ⟨pythonise nm, st.modules, st.embed, pruneOrphans g0,
                             d.wires.foldl
                               (fun dd w2 => dictSet dd (pythonise w2.id) w2) []⟩
                           seq [("forever", StepObj.forever)] [] with
                       | Except.error (e2, tr) =>
                           Except.error ⟨e2, "forever" :: tr.map (fun c => c.module_id)⟩
                       | Except.ok (steps, tr, lastOpt) =>
                         match lastOpt with
                         | none => Except.error ⟨PyErr.nameError "module_id",
                             "forever" :: tr.map (fun c => c.module_id)⟩
                         | some module_id =>
                           match dictGetE steps module_id with
                           | Except.error e2 => Except.error ⟨e2,
                               "forever" :: tr.map (fun c => c.module_id)⟩
                           | Except.ok r =>
                               Except.ok (BuildResult.pipeline steps tr r)) := by
                unfold build_pipeline
                rw [ht]
              rw [hfp] at hb
              exact hb
          | ok v =>
              exfalso
              have h2 := firstPass_ok_keys hfp _ htin
              rw [hmodnone] at h2
              exact Bool.noConfusion h2
        · cases hsfp : strFirstPass
              ⟨pythonise nm, st.modules, st.embed, pruneOrphans g0,
                d.wires.foldl (fun dd w2 => dictSet dd (pythonise w2.id) w2) []⟩
              seq [] [] with
          | error e =>
              refine ⟨e, stringify_pipe_error_of_core ?_⟩
              unfold stringify_core
              rw [ht]
              simp only [except_bind_ok]
              rw [hsfp, except_bind_error]
          | ok v =>
              exfalso
              have h2 := strFirstPass_ok_keys hsfp _ htin
              rw [hmodnone] at h2
              exact Bool.noConfusion h2

/-- Witness for C10: the concrete document whose only wire targets the
unregistered id `nosuch` parses, but neither backend returns a result. -/
theorem C10_dangling_wire_structural_error_witness :
    (build_pipeline ctxRun (pipeOfDoc docDangle "dg")).toOption = none ∧
    (stringify_pipe ctxRun (pipeOfDoc docDangle "dg")).toOption = none :=
  have h := (@C10_dangling_wire_structural_error docDangle "dg"
      (by decide)).2 (pipeOfDoc docDangle "dg") rfl ctxRun
  ⟨h.1.elim (fun e he => by rw [he.1]; rfl),
   h.2.elim (fun e he => by rw [he]; rfl)⟩
